import Mathlib

/-!
Verification development for the Clear-txt todo application (src/clear.cc).

The C++ source is shallowly embedded: `std::string` becomes `List Char`,
`std::vector<TodoItem>` becomes `List TodoItem`, C `int` becomes `Int`
(every arithmetic operation used by the program stays far away from
overflow, so plain `Int` is exact), and the mutable `ClearApp` object
becomes an explicit `AppState` record threaded through pure functions.
File I/O is modelled by keeping the current contents of the data file as
a field of the state; a file that cannot be opened is modelled as a
`none` content.  FLTK timeouts are modelled as armed/disarmed flags, and
the event handler `ClearApp::handle` becomes a step function on
`AppState` driven by an event type, with a reachability relation whose
side conditions express what the toolkit guarantees (a press only
happens while no button is held and at a y coordinate inside the window;
drags and releases only happen while the button is held; a timeout only
fires while it is armed).
-/

namespace ClearTxt

/-- Str models std::string as a list of characters. -/
abbrev Str := List Char

/-- TodoItem mirrors `struct TodoItem` in clear.cc (text, completed,
y_position, swipe_offset); the constructor `TodoItem(t)` initializes
completed to false and the two ints to 0. -/
structure TodoItem where
  text : Str
  completed : Bool
  y_position : Int
  swipe_offset : Int
deriving DecidableEq, Repr

/-- Constructor `TodoItem(const std::string &t)`. -/
def mkItem (t : Str) : TodoItem := ⟨t, false, 0, 0⟩

/-! ## Escaping (ClearApp::escape_text / ClearApp::unescape_text) -/

/-- ClearApp::escape_text: '\n' becomes "\\n", '\\' becomes "\\\\",
every other character is copied. -/
def escape_text : Str → Str
  | [] => []
  | c :: rest =>
    if c = '\n' then '\\' :: 'n' :: escape_text rest
    else if c = '\\' then '\\' :: '\\' :: escape_text rest
    else c :: escape_text rest

/-- ClearApp::unescape_text: a backslash followed by 'n' yields a
newline, a backslash followed by a backslash yields one backslash, a
backslash followed by anything else (or at the end of the string) is
copied literally; the loop in the source advances the index by two in
the first two cases and by one otherwise. -/
def unescape_text : Str → Str
  | [] => []
  | [c] => [c]
  | c :: d :: rest =>
    if c = '\\' then
      if d = 'n' then '\n' :: unescape_text rest
      else if d = '\\' then '\\' :: unescape_text rest
      else c :: unescape_text (d :: rest)
    else c :: unescape_text (d :: rest)

/-! ## The save format (ClearApp::save_to_file body) -/

/-- One output line of ClearApp::save_to_file (without the trailing
newline): `file << "0|" << (item.completed ? "1" : "0") << "|" <<
escape_text(item.text)`. -/
def lineOf (it : TodoItem) : Str :=
  '0' :: '|' :: (if it.completed then '1' else '0') :: '|' :: escape_text it.text

/-- Full contents written by ClearApp::save_to_file: one `lineOf` line
per item, each terminated by `"\n"`, in list order. -/
def save_content : List TodoItem → Str
  | [] => []
  | it :: rest => lineOf it ++ '\n' :: save_content rest

/-! ## Reading lines (std::getline loop in ClearApp::load_from_file) -/

/-- One character step of the std::getline reading loop: a newline
finishes the current line, any other character extends it. -/
def getLinesStep (p : List Str × Str) (c : Char) : List Str × Str :=
  if c = '\n' then (p.1 ++ [p.2], []) else (p.1, p.2 ++ [c])

/-- Sequence of lines produced by `while (std::getline(file, line))` on
the given file contents: getline strips the terminating newline, and a
final unterminated non-empty line is still returned. -/
def getLines (s : Str) : List Str :=
  let p := s.foldl getLinesStep ([], [])
  if p.2 = [] then p.1 else p.1 ++ [p.2]

/-! ## Parsing one line (loop body of ClearApp::load_from_file) -/

/-- Model of `std::string::find('|')`: index of the first '|' if any. -/
def findPipe : Str → Option Nat
  | [] => none
  | c :: rest => if c = '|' then some 0 else (findPipe rest).map (· + 1)

/-- Loop body of ClearApp::load_from_file for one line: empty lines and
lines with fewer than two '|' are skipped (`continue`); otherwise the
completed flag is the comparison of the segment between the first and
second '|' with "1" and the text is the unescaped remainder after the
second '|'.  `pos2 = pos1 + 1 + k` where `k` is the offset of the
second '|' inside `line.drop (pos1+1)`, so `substr(pos1+1, pos2-pos1-1)`
is `take k` and `substr(pos2+1)` is `drop (k+1)` of that suffix. -/
def parseLine (line : Str) : Option TodoItem :=
  if line = [] then none
  else
    match findPipe line with
    | none => none
    | some pos1 =>
      let rest := line.drop (pos1 + 1)
      match findPipe rest with
      | none => none
      | some k =>
        some ⟨unescape_text (rest.drop (k + 1)), decide (rest.take k = ['1']), 0, 0⟩

/-- Accumulating loop of ClearApp::load_from_file: each successfully
parsed line is appended to the item vector and sets `loaded_any`. -/
def loadLoop : List Str → List TodoItem → Bool → List TodoItem × Bool
  | [], acc, any => (acc, any)
  | line :: rest, acc, any =>
    match parseLine line with
    | none => loadLoop rest acc any
    | some it => loadLoop rest (acc ++ [it]) true

/-- Result of ClearApp::load_from_file: the item vector afterwards, the
boolean return value, and whether an error message was shown. -/
structure LoadResult where
  items : List TodoItem
  returned : Bool
  errorShown : Bool
deriving DecidableEq, Repr

/-- ClearApp::load_from_file.  `content = none` models a file that
cannot be opened: the function returns false immediately, leaving the
item vector untouched and showing no error.  Otherwise the vector is
cleared and rebuilt from the parsed lines (successful reads are
modelled; the `file.fail() && !file.eof()` error path never triggers
for an in-memory string). -/
def load_from_file (content : Option Str) (items0 : List TodoItem) : LoadResult :=
  match content with
  | none => ⟨items0, false, false⟩
  | some s =>
    let r := loadLoop (getLines s) [] false
    ⟨r.1, r.2, false⟩

/-! ## Basic lemmas about escaping -/

theorem unescape_cons_of_ne {c : Char} (l : Str) (hc : c ≠ '\\') :
    unescape_text (c :: l) = c :: unescape_text l := by
  cases l with
  | nil => rfl
  | cons d rest => simp [unescape_text, hc]

theorem unescape_escape (t : Str) : unescape_text (escape_text t) = t := by
  induction t with
  | nil => rfl
  | cons c rest ih =>
    by_cases h1 : c = '\n'
    · subst h1
      simp [escape_text, unescape_text, ih]
    · by_cases h2 : c = '\\'
      · subst h2
        simp [escape_text, unescape_text, ih]
      · rw [escape_text]
        simp only [h1, h2, if_false]
        rw [unescape_cons_of_ne _ h2, ih]

theorem newline_not_mem_escape (t : Str) : '\n' ∉ escape_text t := by
  induction t with
  | nil => simp [escape_text]
  | cons c rest ih =>
    by_cases h1 : c = '\n'
    · subst h1; simp [escape_text, ih]
    · by_cases h2 : c = '\\'
      · subst h2; simp [escape_text, ih]
      · simp [escape_text, h1, h2, ih]
        intro h; exact h1 h.symm

theorem newline_not_mem_lineOf (it : TodoItem) : '\n' ∉ lineOf it := by
  unfold lineOf
  intro h
  simp only [List.mem_cons] at h
  rcases h with h | h | h | h | h
  · exact absurd h (by decide)
  · exact absurd h (by decide)
  · cases hc : it.completed <;> rw [hc] at h <;> exact absurd h (by decide)
  · exact absurd h (by decide)
  · exact newline_not_mem_escape _ h

/-! ## Lemmas about getLines -/

theorem foldl_getLinesStep_no_nl (l : Str) (h : '\n' ∉ l) :
    ∀ ls cur, List.foldl getLinesStep (ls, cur) l = (ls, cur ++ l) := by
  induction l with
  | nil => intro ls cur; simp
  | cons c rest ih =>
    intro ls cur
    have hc : c ≠ '\n' := fun hx => h (hx ▸ List.mem_cons_self _ _)
    have hr : '\n' ∉ rest := fun hx => h (List.mem_cons_of_mem _ hx)
    simp only [List.foldl_cons, getLinesStep, hc, if_false]
    rw [ih hr]
    simp

theorem foldl_getLinesStep_shift (l : Str) :
    ∀ ls cur, List.foldl getLinesStep (ls, cur) l =
      (ls ++ (List.foldl getLinesStep ([], cur) l).1,
        (List.foldl getLinesStep ([], cur) l).2) := by
  induction l with
  | nil => intro ls cur; simp
  | cons c rest ih =>
    intro ls cur
    by_cases hc : c = '\n'
    · subst hc
      simp only [List.foldl_cons, getLinesStep, eq_self_iff_true, if_true, List.nil_append]
      rw [ih (ls ++ [cur]) [], ih [cur] []]
      simp [List.append_assoc]
    · simp only [List.foldl_cons, getLinesStep, hc, if_false]
      exact ih ls (cur ++ [c])

theorem getLines_line_cons (line rest : Str) (h : '\n' ∉ line) :
    getLines (line ++ '\n' :: rest) = line :: getLines rest := by
  unfold getLines
  rw [List.foldl_append]
  rw [foldl_getLinesStep_no_nl line h [] []]
  simp only [List.nil_append, List.foldl_cons, getLinesStep, eq_self_iff_true, if_true]
  rw [foldl_getLinesStep_shift rest [line] []]
  rcases hq : List.foldl getLinesStep ([], []) rest with ⟨qs, qcur⟩
  by_cases hc : qcur = []
  · simp [hc]
  · simp [hc]

theorem getLines_nil : getLines [] = [] := rfl

theorem getLines_save (items : List TodoItem) :
    getLines (save_content items) = items.map lineOf := by
  induction items with
  | nil => rfl
  | cons it rest ih =>
    rw [save_content, getLines_line_cons _ _ (newline_not_mem_lineOf it), ih]
    rfl

/-! ## Lemmas about findPipe and parseLine -/

theorem findPipe_append (a r : Str) (h : '|' ∉ a) :
    findPipe (a ++ '|' :: r) = some a.length := by
  induction a with
  | nil => simp [findPipe]
  | cons c rest ih =>
    have hc : c ≠ '|' := fun hx => h (hx ▸ List.mem_cons_self _ _)
    have hr : '|' ∉ rest := fun hx => h (List.mem_cons_of_mem _ hx)
    simp [findPipe, hc, ih hr]

theorem findPipe_eq_none_iff (l : Str) : findPipe l = none ↔ '|' ∉ l := by
  induction l with
  | nil => simp [findPipe]
  | cons c rest ih =>
    by_cases hc : c = '|'
    · subst hc; simp [findPipe]
    · rw [findPipe, if_neg hc, List.mem_cons]
      constructor
      · intro hm hor
        rcases hor with h | h
        · exact hc h.symm
        · rcases hh : findPipe rest with _ | j
          · exact (ih.mp hh) h
          · rw [hh] at hm; simp at hm
      · intro hm
        have hr : '|' ∉ rest := fun hx => hm (Or.inr hx)
        rw [ih.mpr hr]
        rfl

theorem findPipe_some_decomp (l : Str) :
    ∀ i, findPipe l = some i → ∃ a r, l = a ++ '|' :: r ∧ '|' ∉ a ∧ a.length = i := by
  induction l with
  | nil => intro i h; simp [findPipe] at h
  | cons c rest ih =>
    intro i h
    by_cases hc : c = '|'
    · subst hc
      simp [findPipe] at h
      exact ⟨[], rest, by simp, by simp, by simp [← h]⟩
    · simp [findPipe, hc] at h
      rcases h with ⟨j, hj, hji⟩
      rcases ih j hj with ⟨a, r, hl, ha, hlen⟩
      refine ⟨c :: a, r, by simp [hl], ?_, by simp [hlen, hji]⟩
      intro hmem
      rcases List.mem_cons.mp hmem with hx | hx
      · exact hc hx.symm
      · exact ha hx

theorem drop_len_succ (a : Str) (x : Char) (r : Str) :
    (a ++ x :: r).drop (a.length + 1) = r := by
  induction a with
  | nil => simp
  | cons c rest ih =>
    rw [List.cons_append, List.length_cons]
    exact ih

theorem take_len (a : Str) (r : Str) (x : Char) :
    (a ++ x :: r).take a.length = a := by
  induction a with
  | nil => simp
  | cons c rest ih =>
    rw [List.cons_append, List.length_cons, List.take_succ_cons, ih]

/-- Parsing a line that decomposes as prefix, pipe, middle, pipe, tail
(with pipe-free prefix and middle) yields the unescaped tail and the
comparison of the middle with "1". -/
theorem parseLine_decomp (a b c : Str) (ha : '|' ∉ a) (hb : '|' ∉ b) :
    parseLine (a ++ '|' :: (b ++ '|' :: c)) =
      some ⟨unescape_text c, decide (b = ['1']), 0, 0⟩ := by
  have h1 : findPipe (a ++ '|' :: (b ++ '|' :: c)) = some a.length :=
    findPipe_append a _ ha
  have hd : (a ++ '|' :: (b ++ '|' :: c)).drop (a.length + 1) = b ++ '|' :: c :=
    drop_len_succ a '|' (b ++ '|' :: c)
  have h2 : findPipe (b ++ '|' :: c) = some b.length := findPipe_append b c hb
  simp [parseLine, h1, hd, h2, drop_len_succ b '|' c, take_len b c '|']

theorem parseLine_lineOf (it : TodoItem) :
    parseLine (lineOf it) = some ⟨it.text, it.completed, 0, 0⟩ := by
  have h : lineOf it =
      ['0'] ++ '|' :: (([if it.completed then '1' else '0']) ++ '|' :: escape_text it.text) := by
    simp [lineOf]
  rw [h, parseLine_decomp _ _ _ (by decide)
    (by cases hc : it.completed <;> simp)]
  rw [unescape_escape]
  cases hc : it.completed <;> simp

/-- A line is skipped exactly when it has fewer than two '|' characters
(empty lines have none, so they are covered too). -/
theorem parseLine_eq_none_iff (line : Str) :
    parseLine line = none ↔ line.count '|' < 2 := by
  constructor
  · intro h
    by_cases hne : line = []
    · subst hne; simp
    · rcases h1 : findPipe line with _ | pos1
      · have hm : '|' ∉ line := (findPipe_eq_none_iff line).mp h1
        have h0 : line.count '|' = 0 := List.count_eq_zero.mpr hm
        omega
      · rcases h2 : findPipe (line.drop (pos1 + 1)) with _ | k
        · rcases findPipe_some_decomp line pos1 h1 with ⟨a, r, hl, ha, hlen⟩
          have hr : '|' ∉ r := by
            have hx := (findPipe_eq_none_iff _).mp h2
            rwa [hl, ← hlen, drop_len_succ a '|' r] at hx
          have hcount : line.count '|' = 1 := by
            rw [hl, List.count_append, List.count_cons]
            simp [List.count_eq_zero.mpr ha, List.count_eq_zero.mpr hr]
          omega
        · exfalso
          simp [parseLine, hne, h1, h2] at h
  · intro h
    by_cases hne : line = []
    · simp [parseLine, hne]
    · rcases h1 : findPipe line with _ | pos1
      · simp [parseLine, hne, h1]
      · rcases findPipe_some_decomp line pos1 h1 with ⟨a, r, hl, ha, hlen⟩
        have hcr : r.count '|' = 0 := by
          have hc : line.count '|' = r.count '|' + 1 := by
            rw [hl, List.count_append, List.count_cons]
            simp [List.count_eq_zero.mpr ha]
          omega
        have hr : '|' ∉ r := List.count_eq_zero.mp hcr
        have h2 : findPipe (line.drop (pos1 + 1)) = none := by
          rw [hl, ← hlen, drop_len_succ a '|' r]
          exact (findPipe_eq_none_iff r).mpr hr
        simp [parseLine, hne, h1, h2]

/-! ## The load loop -/

theorem loadLoop_eq (lines : List Str) :
    ∀ acc any, loadLoop lines acc any =
      (acc ++ lines.filterMap parseLine,
        any || !(lines.filterMap parseLine).isEmpty) := by
  induction lines with
  | nil => intro acc any; simp [loadLoop]
  | cons line rest ih =>
    intro acc any
    rw [loadLoop]
    rcases hp : parseLine line with _ | it
    · simp only [List.filterMap_cons, hp]
      exact ih acc any
    · simp only [List.filterMap_cons, hp]
      rw [ih (acc ++ [it]) true]
      simp

theorem load_from_file_some (content : Str) (items0 : List TodoItem) :
    load_from_file (some content) items0 =
      ⟨(getLines content).filterMap parseLine,
        !((getLines content).filterMap parseLine).isEmpty, false⟩ := by
  simp only [load_from_file]
  rw [loadLoop_eq]
  simp

/-! ## Claim theorems C1, C2, C3 -/

/-- C1: Round-trip persistence — for every list of items, saving with
save_to_file and loading with load_from_file reconstructs exactly the
same sequence of (text, completed) pairs, in the same order, for
arbitrary item text (newlines and backslashes survive via
escape_text/unescape_text, and '|' in the text survives because only
the first two '|' of a line act as separators). -/
theorem c1_round_trip (items : List TodoItem) (items0 : List TodoItem) :
    ((load_from_file (some (save_content items)) items0).items).map
        (fun it => (it.text, it.completed)) =
      items.map (fun it => (it.text, it.completed)) := by
  rw [load_from_file_some, getLines_save]
  induction items with
  | nil => rfl
  | cons it rest ih =>
    rw [List.map_cons, List.filterMap_cons, parseLine_lineOf, List.map_cons,
      List.map_cons, ih]

/-- C2: Save format — save_to_file writes exactly one line per item, in
list order, of the form `0|` then `1` or `0` for the completed flag,
then `|` and the escaped text (newline as "\\n", backslash as "\\\\"),
each line terminated by a newline: reading the saved contents back line
by line gives exactly the `lineOf` lines, each `lineOf` line has the
stated shape and contains no newline, and escape_text rewrites each
character as claimed. -/
theorem c2_save_format (items : List TodoItem) (it : TodoItem) (t : Str) :
    getLines (save_content items) = items.map lineOf
    ∧ lineOf it =
        '0' :: '|' :: (if it.completed then '1' else '0') :: '|' :: escape_text it.text
    ∧ '\n' ∉ lineOf it
    ∧ escape_text t =
        t.foldr (fun c r =>
          (if c = '\n' then ['\\', 'n']
           else if c = '\\' then ['\\', '\\'] else [c]) ++ r) [] := by
  refine ⟨getLines_save items, rfl, newline_not_mem_lineOf it, ?_⟩
  induction t with
  | nil => rfl
  | cons c rest ih =>
    by_cases h1 : c = '\n'
    · subst h1; simp [escape_text, ih]
    · by_cases h2 : c = '\\'
      · subst h2; simp [escape_text, ih]
      · simp [escape_text, h1, h2, ih]

/-- C3: Load parsing — load_from_file produces one item per line that
is non-empty and has at least two '|' separators (equivalently, lines
with fewer than two '|' — which includes empty lines — are skipped),
the completed flag is true iff the segment between the first and second
'|' equals "1", the text is the unescaped remainder after the second
'|', and the function returns true iff at least one item was loaded. -/
theorem c3_load_parsing (content : Str) (items0 : List TodoItem)
    (line : Str) (a b c : Str) :
    (load_from_file (some content) items0).items = (getLines content).filterMap parseLine
    ∧ ((load_from_file (some content) items0).returned = true ↔
        (load_from_file (some content) items0).items ≠ [])
    ∧ (parseLine line = none ↔ line.count '|' < 2)
    ∧ ('|' ∉ a → '|' ∉ b →
        parseLine (a ++ '|' :: (b ++ '|' :: c)) =
          some ⟨unescape_text c, decide (b = ['1']), 0, 0⟩) := by
  refine ⟨?_, ?_, parseLine_eq_none_iff line, fun ha hb => parseLine_decomp a b c ha hb⟩
  · rw [load_from_file_some]
  · rw [load_from_file_some]
    simp [List.isEmpty_iff]

/-- Witness for c3_load_parsing: instantiated at a concrete file with a
good line, a bad line and an empty line, with the decomposition clause
applied at concrete pipe-free parts. -/
theorem c3_load_parsing_witness :
    parseLine ['0', '|', '1', '|', 'h', 'i'] =
      some ⟨['h', 'i'], true, 0, 0⟩ := by
  have h := (c3_load_parsing ['x'] [] ['x'] ['0'] ['1'] ['h', 'i']).2.2.2
    (by decide) (by decide)
  simpa using h

/-! ## Application state

The mutable fields of class ClearApp become a record.  `file` holds the
current contents of the data file (writes are modelled as succeeding).
`input_visible`/`input_value` model the Fl_Input widget.  The ghost
fields `button_down`, `long_press_armed` and `click_timer_armed` model
the FLTK pointer grab and the two `Fl::add_timeout` callbacks
(`long_press_timeout_cb`, `click_timeout_cb`); the error-display
timeout is modelled separately below.  `item_height` is always 60,
`w()` 600 and `h()` 800 (the window is created with size 600x800), so
they are global constants. -/
structure AppState where
  items : List TodoItem
  selected_index : Int
  drag_start_y : Int
  drag_start_x : Int
  is_dragging : Bool
  is_swiping : Bool
  is_pulling_down : Bool
  pull_down_offset : Int
  drag_offset : Int
  editing_index : Int
  editing_text : Str
  pending_click_index : Int
  can_reorder : Bool
  scroll_offset : Int
  input_visible : Bool
  input_value : Str
  error_message : Str
  error_visible : Bool
  file : Str
  button_down : Bool
  long_press_armed : Bool
  click_timer_armed : Bool
deriving DecidableEq, Repr

/-- Window height `h()`. -/
def winH : Int := 800

/-- Item at an int index, `none` when out of range (a guarded access). -/
def getAt (items : List TodoItem) (i : Int) : Option TodoItem :=
  if 0 ≤ i then items[i.toNat]? else none

/-- In-range update of the item at an int index; out-of-range indices
leave the vector unchanged (call sites in the source only reach this
with a valid index, except for one out-of-bounds write noted at its
call site). -/
def modAt (items : List TodoItem) (i : Int) (f : TodoItem → TodoItem) : List TodoItem :=
  if 0 ≤ i then
    match items[i.toNat]? with
    | some it => items.set i.toNat (f it)
    | none => items
  else items

/-- Erasure `items.erase(items.begin() + i)` (call sites guarantee the
index is in range). -/
def eraseAt (items : List TodoItem) (i : Int) : List TodoItem :=
  if 0 ≤ i then items.eraseIdx i.toNat else items

/-- Insertion `items.insert(items.begin() + j, x)` (call sites
guarantee j ≤ size; past-the-end positions append). -/
def insertAt : List TodoItem → Nat → TodoItem → List TodoItem
  | l, 0, x => x :: l
  | [], _ + 1, x => [x]
  | a :: l, j + 1, x => a :: insertAt l j x

/-- ClearApp::save_to_file as a state transformer: the data file now
holds the serialized items (the write is modelled as succeeding, so the
error path does not fire). -/
def save_to_file (s : AppState) : AppState :=
  { s with file := save_content s.items }

/-- Completed flag of the item at a Nat index (false out of range). -/
def completedAt (items : List TodoItem) (i : Nat) : Bool :=
  match items[i]? with
  | some it => it.completed
  | none => false

/-- ClearApp::get_sorted_indices: indices of all incomplete items in
stored order, then indices of all completed items in stored order. -/
def get_sorted_indices (items : List TodoItem) : List Nat :=
  (List.range items.length).filter (fun i => !completedAt items i)
    ++ (List.range items.length).filter (fun i => completedAt items i)

/-- ClearApp::get_item_at_y: maps a y coordinate to the actual item
index through the visual (sorted) order; -1 when above the first item
or past the last.  The C integer division `adjusted / item_height` is
only reached with `adjusted ≥ 0`, where it agrees with `Int./`. -/
def get_item_at_y (s : AppState) (y : Int) : Int :=
  let adjusted := y + s.scroll_offset
  if adjusted < 0 then -1
  else
    let vis := adjusted / 60
    let sorted := get_sorted_indices s.items
    if 0 ≤ vis ∧ vis.toNat < sorted.length then ((sorted.getD vis.toNat 0 : Nat) : Int)
    else -1

/-- ClearApp::get_max_scroll_offset. -/
def get_max_scroll_offset (s : AppState) : Int :=
  let maxScroll := (s.items.length : Int) * 60 - (winH - 40)
  if maxScroll > 0 then maxScroll else 0

/-- ClearApp::clamp_scroll_offset. -/
def clamp_scroll_offset (s : AppState) : AppState :=
  let m := get_max_scroll_offset s
  if s.scroll_offset < 0 then { s with scroll_offset := 0 }
  else if s.scroll_offset > m then { s with scroll_offset := m }
  else s

/-- Core of ClearApp::start_editing (everything except the recursive
`finish_editing()` call at its top): records the edited index and text
and shows the input widget preloaded with the item text.  The geometry
and color computations of the source do not touch modelled state. -/
def start_editing_core (s : AppState) (index : Int) : AppState :=
  if 0 ≤ index ∧ index < (s.items.length : Int) then
    match getAt s.items index with
    | some it =>
      { s with editing_index := index, editing_text := it.text,
               input_visible := true, input_value := it.text }
    | none => s
  else s

/-- ClearApp::finish_editing.  The text is taken from the input widget
when it is visible.  An empty text removes the edited item; if the list
becomes empty a fresh empty item is pushed and editing of it restarts
(the source calls `start_editing(0)` there with `editing_index` already
reset to -1, so the call equals `start_editing_core`); note that the
empty-text branches do NOT save.  A non-empty text is stored into the
item and the file is saved. -/
def finish_editing (s : AppState) : AppState :=
  if 0 ≤ s.editing_index ∧ s.editing_index < (s.items.length : Int) then
    let etext := if s.input_visible then s.input_value else s.editing_text
    let s1 := { s with editing_text := etext, input_visible := false }
    if etext = [] then
      let s2 := { s1 with items := eraseAt s1.items s1.editing_index }
      if s2.items = [] then
        start_editing_core
          { s2 with items := [mkItem []], editing_index := -1, editing_text := [] } 0
      else { s2 with editing_index := -1, editing_text := [] }
    else
      save_to_file
        { s1 with items := modAt s1.items s1.editing_index (fun it => { it with text := etext }),
                  editing_index := -1, editing_text := [] }
  else s

/-- ClearApp::start_editing: finishes a different edit currently in
progress, then runs the core.  (The source reads `items[index].text`
without re-checking the bound after `finish_editing` may have shrunk
the vector; the core's guarded access models that out-of-bounds read as
a no-op.) -/
def start_editing (s : AppState) (index : Int) : AppState :=
  if 0 ≤ index ∧ index < (s.items.length : Int) then
    let s1 := if 0 ≤ s.editing_index ∧ s.editing_index ≠ index then finish_editing s else s
    start_editing_core s1 index
  else s

/-- ClearApp::delete_item: erases the item, fixes up selected_index,
clears all swipe offsets, clamps the scroll, replaces an emptied list
by one empty item whose editing starts (the `start_editing(0)` call
there has `editing_index = 0 = index`, hence equals the core), and
saves. -/
def delete_item (s : AppState) (index : Int) : AppState :=
  if 0 ≤ index ∧ index < (s.items.length : Int) then
    let s1 := { s with items := eraseAt s.items index }
    let s2 := if (s1.items.length : Int) ≤ s1.selected_index
      then { s1 with selected_index := -1 } else s1
    let s3 := { s2 with items := s2.items.map (fun it => { it with swipe_offset := 0 }) }
    let s4 := clamp_scroll_offset s3
    let s5 :=
      if s4.items = [] then
        start_editing_core
          { s4 with items := [mkItem []], editing_index := 0, editing_text := [],
                    scroll_offset := 0 } 0
      else s4
    save_to_file s5
  else s

/-- ClearApp::toggle_complete: flips the completed flag in place (the
item keeps its position in the stored list) and saves. -/
def toggle_complete (s : AppState) (index : Int) : AppState :=
  if 0 ≤ index ∧ index < (s.items.length : Int) then
    save_to_file
      { s with items := modAt s.items index (fun it => { it with completed := !it.completed }) }
  else s

/-- ClearApp::reorder_items: no-op on out-of-range or equal indices;
otherwise erase at from_index and insert at to_index, then save. -/
def reorder_items (s : AppState) (fromIdx toIdx : Int) : AppState :=
  if fromIdx < 0 ∨ (s.items.length : Int) ≤ fromIdx ∨ toIdx < 0 ∨
      (s.items.length : Int) ≤ toIdx ∨ fromIdx = toIdx then s
  else
    match getAt s.items fromIdx with
    | some it =>
      save_to_file { s with items := insertAt (eraseAt s.items fromIdx) toIdx.toNat it }
    | none => s

/-- ClearApp::add_item: finishes any edit, resets pull-down and scroll
state, inserts the new item at the head, starts editing it (the
`start_editing(0)` call has `editing_index = 0 = index`, hence equals
the core) and saves. -/
def add_item (s : AppState) (text : Str) : AppState :=
  let s1 := if 0 ≤ s.editing_index then finish_editing s else s
  let s2 := { s1 with is_pulling_down := false, pull_down_offset := 0, scroll_offset := 0 }
  let s3 := { s2 with items := mkItem text :: s2.items }
  let s4 := { s3 with editing_index := 0, editing_text := text }
  save_to_file (start_editing_core s4 0)

/-- ClearApp::handle_single_click (run by click_timeout_cb). -/
def handle_single_click (s : AppState) (index : Int) : AppState :=
  if 0 ≤ index ∧ index < (s.items.length : Int) ∧ s.pending_click_index = index then
    let s1 := if s.editing_index ≠ index then start_editing s index else s
    { s1 with pending_click_index := -1 }
  else s

/-- ClearApp::add_sample_items. -/
def sample_items : List TodoItem :=
  [mkItem ("Welcome to Clear".toList),
   mkItem ("Pull down to add new task".toList),
   mkItem ("Click to edit task".toList),
   mkItem ("Double-click to complete".toList),
   mkItem ("Swipe right to delete".toList),
   mkItem ("Long press to reorder".toList)]

/-- ClearApp constructor: every flag false, indices -1, then
load_from_file; when nothing was loaded (or the load produced an empty
list) the six sample items are installed and saved.  `content` is the
data file found on disk (`none` = missing/unopenable, modelled as empty
current contents). -/
def initApp (content : Option Str) : AppState :=
  let r := load_from_file content []
  let base : AppState :=
    { items := r.items, selected_index := -1, drag_start_y := 0, drag_start_x := 0,
      is_dragging := false, is_swiping := false, is_pulling_down := false,
      pull_down_offset := 0, drag_offset := 0, editing_index := -1, editing_text := [],
      pending_click_index := -1, can_reorder := false, scroll_offset := 0,
      input_visible := false, input_value := [], error_message := [],
      error_visible := false, file := content.getD [], button_down := false,
      long_press_armed := false, click_timer_armed := false }
  if !r.returned || r.items = [] then
    save_to_file { base with items := sample_items }
  else base

/-! ## The event handler (ClearApp::handle) as a step function -/

/-- Mouse button of an FL_PUSH event. -/
inductive MB where
  | left
  | right
  | other
deriving DecidableEq, Repr

/-- Opening lines of the FL_PUSH branch: a left click somewhere other
than the edited item finishes the edit. -/
def pushFinishEdit (s : AppState) (my : Int) (btn : MB) : AppState :=
  if 0 ≤ s.editing_index ∧ btn = MB.left then
    if get_item_at_y s my ≠ s.editing_index then finish_editing s else s
  else s

/-- Right-click branch of FL_PUSH: finish any edit and delete the
clicked item. -/
def pushRightDelete (s : AppState) (index : Int) : AppState :=
  let s3 := if 0 ≤ s.editing_index then finish_editing s else s
  delete_item s3 index

/-- FL_PUSH branch of ClearApp::handle.  `my ≥ 0` is a side condition
of the reachability relation (FLTK delivers a press to the window only
when the pointer is inside it), under which the pull-zone test
`my < start_y && index < 0` (start_y = 0) is false. -/
def stepPush (s : AppState) (mx my : Int) (btn : MB) : AppState :=
  let s0 := { s with button_down := true }
  let s1 := pushFinishEdit s0 my btn
  let s2 := { s1 with items := s1.items.map (fun it => { it with swipe_offset := 0 }) }
  let index := get_item_at_y s2 my
  let inPullZone := my < 0 ∧ index < 0
  if 0 ≤ index then
    if btn = MB.left then
      { s2 with selected_index := index, is_dragging := false, is_swiping := false,
                is_pulling_down := false, can_reorder := false,
                drag_start_y := my, drag_start_x := mx,
                drag_offset := my - index * 60,
                pending_click_index := -1,
                long_press_armed := true }
    else if btn = MB.right then
      pushRightDelete s2 index
    else s2
  else if inPullZone ∧ btn = MB.left then
    { s2 with is_dragging := true, is_pulling_down := true,
              drag_start_y := my, drag_start_x := mx,
              pull_down_offset := 0, selected_index := -1 }
  else s2

/-- Swipe-offset write `items[selected_index].swipe_offset = dx`.  When
the source reaches this with `selected_index = -1` (possible after the
drag handler switches to pull-down mode while a swipe was active, an
out-of-bounds vector write, i.e. undefined behaviour in C++) the model
makes it a no-op. -/
def setSwipe (s : AppState) (dx : Int) : AppState :=
  { s with items := modAt s.items s.selected_index (fun it => { it with swipe_offset := dx }) }

/-- Pull-down part of FL_DRAG (lines guarded by `is_pulling_down`).
The threshold `item_height * 1.5 = 90.0` is exact in double precision,
so the integer comparison coincides with the source. -/
def dragPulling (s : AppState) (dy : Int) : AppState :=
  if dy > 0 then
    { s with pull_down_offset := if dy > 90 then 90 else dy }
  else if dy < -5 then
    { s with pull_down_offset := 0 }
  else s

/-- First phase of the FL_DRAG item branch (source lines 847-874): mode
transitions with possible early `return 1`, reported as the boolean. -/
def dragPhase1 (s : AppState) (dx dy : Int) : AppState × Bool :=
  if ¬s.can_reorder ∧ dy > 20 ∧ dx.natAbs < 30 then
    ({ s with long_press_armed := false, is_pulling_down := true, is_dragging := true,
              selected_index := -1, pull_down_offset := dy }, false)
  else if ¬s.can_reorder then
    if dx.natAbs > 10 ∧ dy.natAbs < dx.natAbs then
      ({ setSwipe s dx with is_swiping := true, is_dragging := true }, false)
    else if dx.natAbs > 5 ∨ dy.natAbs > 5 then
      ({ s with long_press_armed := false, can_reorder := false }, true)
    else (s, true)
  else (s, false)

/-- Second phase of the FL_DRAG item branch (source lines 877-904):
swipe continuation or reorder. -/
def dragPhase2 (t : AppState) (dx dy my : Int) : AppState :=
  if ¬t.can_reorder ∧ ¬t.is_swiping then t
  else
    let t1 := if ¬t.is_swiping then { t with is_dragging := true } else t
    let t2 := if ¬t1.is_swiping ∧ dx.natAbs > 10 then { t1 with is_swiping := true } else t1
    if t2.is_swiping then setSwipe t2 dx
    else if t2.can_reorder ∧ dy.natAbs > 10 then
      let ni := get_item_at_y t2 my
      if 0 ≤ ni ∧ ni ≠ t2.selected_index then
        { reorder_items t2 t2.selected_index ni with selected_index := ni }
      else t2
    else t2

/-- FL_DRAG branch of ClearApp::handle. -/
def stepDrag (s : AppState) (mx my : Int) : AppState :=
  let dx := mx - s.drag_start_x
  let dy := my - s.drag_start_y
  if s.is_pulling_down then dragPulling s dy
  else if 0 ≤ s.selected_index then
    let p := dragPhase1 s dx dy
    if p.2 then p.1 else dragPhase2 p.1 dx dy my
  else s

/-- Swipe handling at FL_RELEASE (duplicated in the source for the
reorder and the plain branch).  `w() * 0.3` rounds to exactly 180.0 in
double precision, so for integer offsets the comparisons are `< -180`
and `> 180`. -/
def releaseSwipe (s : AppState) : AppState :=
  let so := match getAt s.items s.selected_index with
    | some it => it.swipe_offset
    | none => 0
  if so < -180 then
    let s1 := if s.editing_index = s.selected_index
      then { s with editing_index := -1, editing_text := [] } else s
    delete_item s1 s1.selected_index
  else if so > 180 then
    setSwipe (toggle_complete s s.selected_index) 0
  else setSwipe s 0

/-- FL_RELEASE branch of ClearApp::handle.  `clicks` is
`Fl::event_clicks()` (positive on a double click).  The long-press
timeout is removed first; `item_height * 0.6` rounds to exactly 36.0 in
double precision, so the pull-down acceptance test is `> 36`. -/
def stepRelease (s : AppState) (mx my : Int) (clicks : Int) : AppState :=
  let s0 := { s with long_press_armed := false }
  let s1 :=
    if s0.is_pulling_down then
      if s0.pull_down_offset > 36 then add_item s0 []
      else { s0 with pull_down_offset := 0, is_pulling_down := false }
    else if s0.is_dragging ∧ 0 ≤ s0.selected_index ∧ s0.can_reorder then
      if s0.is_swiping then releaseSwipe s0 else s0
    else if 0 ≤ s0.selected_index then
      let dx := mx - s0.drag_start_x
      let dy := my - s0.drag_start_y
      if s0.is_swiping then releaseSwipe s0
      else if dx.natAbs < 5 ∧ dy.natAbs < 5 ∧ ¬s0.can_reorder then
        if clicks > 0 then
          let s2 := if 0 ≤ s0.pending_click_index
            then { s0 with click_timer_armed := false, pending_click_index := -1 } else s0
          if s2.editing_index < 0 then toggle_complete s2 s2.selected_index else s2
        else
          let s2 := if 0 ≤ s0.pending_click_index
            then { s0 with click_timer_armed := false } else s0
          { s2 with pending_click_index := s2.selected_index, click_timer_armed := true }
      else s0
    else s0
  { s1 with is_dragging := false, is_swiping := false, can_reorder := false,
            button_down := false }

/-- long_press_timeout_cb → ClearApp::enable_reorder. -/
def stepLongPress (s : AppState) : AppState :=
  let s0 := { s with long_press_armed := false }
  if 0 ≤ s0.selected_index then { s0 with can_reorder := true, is_dragging := true } else s0

/-- click_timeout_cb. -/
def stepClickFire (s : AppState) : AppState :=
  let s0 := { s with click_timer_armed := false }
  if 0 ≤ s0.pending_click_index then handle_single_click s0 s0.pending_click_index else s0

/-- FL_KEYBOARD with Escape while editing: an empty input removes the
edited item (re-creating a single empty item and restarting editing of
it, without saving, when the list empties — the `start_editing(0)`
there equals the core since `editing_index = 0 = index`); otherwise the
input is hidden and the file saved. -/
def stepEscape (s : AppState) : AppState :=
  if 0 ≤ s.editing_index ∧ s.input_visible = true then
    if s.input_value = [] ∧ s.editing_index < (s.items.length : Int) then
      let s1 := { s with items := eraseAt s.items s.editing_index }
      if s1.items = [] then
        start_editing_core
          { s1 with items := [mkItem []], editing_index := 0, editing_text := [] } 0
      else
        save_to_file { s1 with input_visible := false, editing_index := -1, editing_text := [] }
    else
      save_to_file { s with input_visible := false, editing_index := -1, editing_text := [] }
  else s

/-- FL_KEYBOARD with Delete while not editing. -/
def stepKeyDelete (s : AppState) : AppState :=
  if ¬(0 ≤ s.editing_index ∧ s.input_visible = true) ∧ 0 ≤ s.selected_index then
    { delete_item s s.selected_index with selected_index := -1 }
  else s

/-- FL_MOUSEWHEEL. -/
def stepWheel (s : AppState) (dy : Int) : AppState :=
  if dy ≠ 0 then clamp_scroll_offset { s with scroll_offset := s.scroll_offset - dy * 60 }
  else s

/-- Events driving the handler (pointer events, the two timeout
callbacks, keyboard, wheel). -/
inductive Ev where
  | push (mx my : Int) (btn : MB)
  | drag (mx my : Int)
  | release (mx my : Int) (clicks : Int)
  | longPress
  | clickFire
  | keyEscape
  | keyDelete
  | wheel (dy : Int)
deriving DecidableEq, Repr

/-- One handler invocation. -/
def stepEv : Ev → AppState → AppState
  | .push mx my btn, s => stepPush s mx my btn
  | .drag mx my, s => stepDrag s mx my
  | .release mx my clicks, s => stepRelease s mx my clicks
  | .longPress, s => stepLongPress s
  | .clickFire, s => stepClickFire s
  | .keyEscape, s => stepEscape s
  | .keyDelete, s => stepKeyDelete s
  | .wheel dy, s => stepWheel s dy

/-- Toolkit-guaranteed preconditions of each event: a press arrives
with no button held and inside the window (0 ≤ my), drags and releases
only while the button is held, a timeout only fires while armed. -/
def evGuard : Ev → AppState → Prop
  | .push _ my _, s => s.button_down = false ∧ 0 ≤ my
  | .drag _ _, s => s.button_down = true
  | .release _ _ _, s => s.button_down = true
  | .longPress, s => s.long_press_armed = true
  | .clickFire, s => s.click_timer_armed = true
  | .keyEscape, _ => True
  | .keyDelete, _ => True
  | .wheel _, _ => True

instance (e : Ev) (s : AppState) : Decidable (evGuard e s) := by
  cases e <;> simp only [evGuard] <;> infer_instance

/-- States reachable from application startup (on any data file)
through guarded handler invocations. -/
inductive Reachable : AppState → Prop where
  | init : ∀ content, Reachable (initApp content)
  | step : ∀ e s, Reachable s → evGuard e s → Reachable (stepEv e s)

/-! ## Error display (ClearApp::show_error / hide_error) -/

/-- ErrorDisplay plus the pending `hide_error_cb` timeouts
(`Fl::remove_timeout(hide_error_cb, this)` removes every matching
timeout, so the list empties; `Fl::add_timeout(3.0, ...)` appends one
with delay 3.0 seconds, represented as the rational 3). -/
structure ErrorTimerState where
  message : Str
  is_visible : Bool
  timeouts : List ℚ
deriving DecidableEq, Repr

/-- ClearApp::show_error: cancel any existing timeout, set the message,
show it, and schedule auto-hide after 3.0 seconds. -/
def show_error (m : Str) (_s : ErrorTimerState) : ErrorTimerState :=
  ⟨m, true, [(3 : ℚ)]⟩

/-- ClearApp::hide_error (also run when the timeout fires). -/
def hide_error (_s : ErrorTimerState) : ErrorTimerState :=
  ⟨[], false, []⟩

/-! ## Claim theorems C6, C7, C10 -/

/-- C6: Missing file is first run — when the data file cannot be opened
(content = none), load_from_file returns false without touching the
item list and without showing an error, and the constructor then
installs exactly the six sample items and saves them. -/
theorem c6_missing_file (items0 : List TodoItem) :
    load_from_file none items0 = ⟨items0, false, false⟩
    ∧ (initApp none).items = sample_items
    ∧ sample_items.length = 6
    ∧ (initApp none).file = save_content sample_items
    ∧ (initApp none).error_visible = false := by
  refine ⟨rfl, ?_, rfl, ?_, ?_⟩ <;> rfl

/-- C7: Transient error message with fixed delay — show_error makes the
message visible and schedules dismissal after exactly 3.0 seconds; a
second show_error before dismissal cancels the previous timer and
restarts a single 3.0-second delay with the new message; firing the
timer (hide_error) hides and clears the message and leaves no pending
timer. -/
theorem c7_show_error (m m2 : Str) (s : ErrorTimerState) :
    (show_error m s).is_visible = true
    ∧ (show_error m s).message = m
    ∧ (show_error m s).timeouts = [(3 : ℚ)]
    ∧ show_error m2 (show_error m s) = ⟨m2, true, [(3 : ℚ)]⟩
    ∧ hide_error (show_error m s) = ⟨[], false, []⟩ :=
  ⟨rfl, rfl, rfl, rfl, rfl⟩

/-! ## Lemmas for C10 (reorder_items) -/

theorem insertAt_perm (l : List TodoItem) :
    ∀ j x, (insertAt l j x).Perm (x :: l) := by
  induction l with
  | nil => intro j x; cases j <;> exact List.Perm.refl _
  | cons a rest ih =>
    intro j x
    cases j with
    | zero => exact List.Perm.refl _
    | succ j =>
      have h1 : insertAt (a :: rest) (j + 1) x = a :: insertAt rest j x := rfl
      rw [h1]
      exact ((ih j x).cons a).trans (List.Perm.swap x a rest)

theorem eraseIdx_cons_perm (l : List TodoItem) :
    ∀ i (hi : i < l.length), l.Perm (l.get ⟨i, hi⟩ :: l.eraseIdx i) := by
  induction l with
  | nil => intro i hi; exact absurd hi (by simp)
  | cons a rest ih =>
    intro i hi
    cases i with
    | zero => exact List.Perm.refl _
    | succ i =>
      have hi' : i < rest.length := by simpa using hi
      have h1 : (a :: rest).get ⟨i + 1, hi⟩ = rest.get ⟨i, hi'⟩ := rfl
      have h2 : (a :: rest).eraseIdx (i + 1) = a :: rest.eraseIdx i := rfl
      rw [h1, h2]
      exact ((ih i hi').cons a).trans (List.Perm.swap _ a _)

theorem insertAt_getElem? (l : List TodoItem) :
    ∀ j x, j ≤ l.length → (insertAt l j x)[j]? = some x := by
  induction l with
  | nil =>
    intro j x hj
    have hj0 : j = 0 := by simpa using hj
    subst hj0
    rfl
  | cons a rest ih =>
    intro j x hj
    cases j with
    | zero => rfl
    | succ j =>
      have h1 : insertAt (a :: rest) (j + 1) x = a :: insertAt rest j x := rfl
      rw [h1, List.getElem?_cons_succ]
      exact ih j x (by simpa using hj)

theorem getAt_insertAt (l : List TodoItem) (j : Nat) (x : TodoItem)
    (hj : j ≤ l.length) : getAt (insertAt l j x) (j : Int) = some x := by
  rw [getAt, if_pos (by omega : (0 : Int) ≤ (j : Int))]
  simpa using insertAt_getElem? l j x hj

theorem getAt_eq_get (l : List TodoItem) (i : Int) (h0 : 0 ≤ i)
    (hn : i.toNat < l.length) : getAt l i = some (l.get ⟨i.toNat, hn⟩) := by
  rw [getAt, if_pos h0, List.getElem?_eq_getElem hn]
  rfl

/-- C10: reorder_items preserves content — out-of-range or equal
indices leave the list unchanged; otherwise the result is a permutation
of the original (same multiset, same length, each item's text and flag
intact) with the moved item now at position to_index. -/
theorem c10_reorder_items (s : AppState) (fromIdx toIdx : Int) :
    ((fromIdx < 0 ∨ (s.items.length : Int) ≤ fromIdx ∨ toIdx < 0 ∨
        (s.items.length : Int) ≤ toIdx ∨ fromIdx = toIdx) →
      reorder_items s fromIdx toIdx = s)
    ∧ (reorder_items s fromIdx toIdx).items.Perm s.items
    ∧ (reorder_items s fromIdx toIdx).items.length = s.items.length
    ∧ (0 ≤ fromIdx → fromIdx < (s.items.length : Int) → 0 ≤ toIdx →
        toIdx < (s.items.length : Int) → fromIdx ≠ toIdx →
        getAt (reorder_items s fromIdx toIdx).items toIdx = getAt s.items fromIdx) := by
  by_cases hguard : fromIdx < 0 ∨ (s.items.length : Int) ≤ fromIdx ∨ toIdx < 0 ∨
      (s.items.length : Int) ≤ toIdx ∨ fromIdx = toIdx
  · rw [reorder_items, if_pos hguard]
    refine ⟨fun _ => rfl, List.Perm.refl _, rfl, fun h1 h2 h3 h4 h5 => ?_⟩
    exact absurd hguard (by push_neg; exact ⟨by omega, by omega, by omega, by omega, h5⟩)
  · push_neg at hguard
    obtain ⟨hf0, hfl, ht0, htl, hne⟩ := hguard
    have hfn : fromIdx.toNat < s.items.length := by omega
    have hget : getAt s.items fromIdx = some (s.items.get ⟨fromIdx.toNat, hfn⟩) :=
      getAt_eq_get s.items fromIdx hf0 hfn
    have hng : ¬(fromIdx < 0 ∨ (s.items.length : Int) ≤ fromIdx ∨ toIdx < 0 ∨
        (s.items.length : Int) ≤ toIdx ∨ fromIdx = toIdx) := by
      push_neg
      exact ⟨hf0, hfl, ht0, htl, hne⟩
    have herase : eraseAt s.items fromIdx = s.items.eraseIdx fromIdx.toNat := by
      rw [eraseAt, if_pos hf0]
    have hperm : (insertAt (eraseAt s.items fromIdx) toIdx.toNat
        (s.items.get ⟨fromIdx.toNat, hfn⟩)).Perm s.items := by
      rw [herase]
      exact (insertAt_perm _ _ _).trans (eraseIdx_cons_perm s.items fromIdx.toNat hfn).symm
    simp only [reorder_items, if_neg hng, hget, save_to_file]
    refine ⟨fun h => absurd h hng, hperm, hperm.length_eq, fun _ _ _ _ _ => ?_⟩
    have hlen : toIdx.toNat ≤ (eraseAt s.items fromIdx).length := by
      rw [herase]
      rw [List.length_eraseIdx_of_lt hfn]
      omega
    have ht : toIdx = ((toIdx.toNat : Nat) : Int) := by omega
    rw [ht]
    exact getAt_insertAt _ _ _ hlen

/-- Witness for c10_reorder_items at a concrete three-item list moving
index 0 to index 2. -/
theorem c10_reorder_items_witness :
    getAt (reorder_items (initApp (some ['0', '|', '0', '|', 'a', '\n',
        '0', '|', '0', '|', 'b', '\n', '0', '|', '0', '|', 'c', '\n'])) 0 2).items 2 =
      getAt (initApp (some ['0', '|', '0', '|', 'a', '\n',
        '0', '|', '0', '|', 'b', '\n', '0', '|', '0', '|', 'c', '\n'])).items 0 := by
  exact (c10_reorder_items _ 0 2).2.2.2 (by decide) (by decide) (by decide)
    (by decide) (by decide)

/-! ## Frame lemmas for the item list -/

theorem save_to_file_items (s : AppState) : (save_to_file s).items = s.items := rfl

theorem clamp_scroll_offset_items (s : AppState) :
    (clamp_scroll_offset s).items = s.items := by
  simp only [clamp_scroll_offset]
  repeat' split
  all_goals rfl

theorem start_editing_core_items (s : AppState) (i : Int) :
    (start_editing_core s i).items = s.items := by
  simp only [start_editing_core]
  repeat' split
  all_goals rfl

theorem modAt_length (l : List TodoItem) (i : Int) (f : TodoItem → TodoItem) :
    (modAt l i f).length = l.length := by
  unfold modAt
  by_cases h0 : 0 ≤ i
  · rw [if_pos h0]
    rcases hx : l[i.toNat]? with _ | it
    · rfl
    · simp
  · rw [if_neg h0]

theorem modAt_getElem?_of_ne (l : List TodoItem) (i : Int) (f : TodoItem → TodoItem)
    (k : Nat) (hk : (k : Int) ≠ i) : (modAt l i f)[k]? = l[k]? := by
  unfold modAt
  by_cases h0 : 0 ≤ i
  · rw [if_pos h0]
    rcases hx : l[i.toNat]? with _ | it
    · rfl
    · have hne : i.toNat ≠ k := by omega
      simp [List.getElem?_set_ne hne]
  · rw [if_neg h0]

theorem modAt_getElem?_map (l : List TodoItem) (i : Int) (f : TodoItem → TodoItem)
    (g : TodoItem → Str) (hf : ∀ it, g (f it) = g it) (k : Nat) :
    ((modAt l i f)[k]?).map g = (l[k]?).map g := by
  unfold modAt
  by_cases h0 : 0 ≤ i
  · rw [if_pos h0]
    rcases hx : l[i.toNat]? with _ | it
    · rfl
    · by_cases hk : i.toNat = k
      · subst hk
        have hlt : i.toNat < l.length := by
          by_contra hge
          rw [List.getElem?_eq_none (by omega)] at hx
          exact Option.noConfusion hx
        rw [List.getElem?_set_eq_of_lt _ (by simpa using hlt), hx]
        simp [hf]
      · simp [List.getElem?_set_ne hk]
  · rw [if_neg h0]

/-! ## C5: visual (not physical) sorting of completed items -/

/-- Order in which the item loop of ClearApp::draw visits the items:
it iterates over get_sorted_indices (the visibility test only skips the
painting of off-screen items, not the visiting order). -/
def draw_order (items : List TodoItem) : List Nat := get_sorted_indices items

theorem get_sorted_indices_perm (items : List TodoItem) :
    (get_sorted_indices items).Perm (List.range items.length) := by
  unfold get_sorted_indices
  have hcongr : (List.range items.length).filter (fun i => !(!completedAt items i)) =
      (List.range items.length).filter (fun i => completedAt items i) :=
    List.filter_congr (fun x _ => by simp)
  rw [← hcongr]
  exact List.filter_append_perm (fun i => !completedAt items i) (List.range items.length)

theorem sorted_filter_range (n : Nat) (p : Nat → Bool) :
    ((List.range n).filter p).Sorted (· < ·) :=
  (List.pairwise_lt_range n).filter p

/-- C5: Visual-not-physical sorting — get_sorted_indices is a
permutation of 0..n-1 listing the indices of incomplete items first (in
increasing, i.e. stored, order) and then the completed ones (also in
stored order); the draw loop visits items in exactly that order; and
toggle_complete keeps every item at its stored position (the length and
the text at every index are unchanged, and entries other than the
toggled one are untouched). -/
theorem c5_visual_sorting (s : AppState) (i : Int) :
    (get_sorted_indices s.items).Perm (List.range s.items.length)
    ∧ get_sorted_indices s.items =
        (List.range s.items.length).filter (fun k => !completedAt s.items k)
          ++ (List.range s.items.length).filter (fun k => completedAt s.items k)
    ∧ ((List.range s.items.length).filter (fun k => !completedAt s.items k)).Sorted (· < ·)
    ∧ ((List.range s.items.length).filter (fun k => completedAt s.items k)).Sorted (· < ·)
    ∧ (∀ k : Nat, k ∈ (List.range s.items.length).filter (fun m => !completedAt s.items m) ↔
        k < s.items.length ∧ completedAt s.items k = false)
    ∧ (∀ k : Nat, k ∈ (List.range s.items.length).filter (fun m => completedAt s.items m) ↔
        k < s.items.length ∧ completedAt s.items k = true)
    ∧ draw_order s.items = get_sorted_indices s.items
    ∧ (toggle_complete s i).items.length = s.items.length
    ∧ (∀ k : Nat, ((toggle_complete s i).items[k]?).map TodoItem.text =
        (s.items[k]?).map TodoItem.text)
    ∧ (∀ k : Nat, (k : Int) ≠ i → (toggle_complete s i).items[k]? = s.items[k]?) := by
  refine ⟨get_sorted_indices_perm s.items, rfl, sorted_filter_range _ _, sorted_filter_range _ _,
    ?_, ?_, rfl, ?_, ?_, ?_⟩
  · intro k; simp [List.mem_filter, List.mem_range]
  · intro k; simp [List.mem_filter, List.mem_range]
  · unfold toggle_complete
    split
    · rw [save_to_file_items]
      exact modAt_length _ _ _
    · rfl
  · intro k
    unfold toggle_complete
    split
    · rw [save_to_file_items]
      exact modAt_getElem?_map s.items i (fun it => { it with completed := !it.completed })
        TodoItem.text (fun it => rfl) k
    · rfl
  · intro k hk
    unfold toggle_complete
    split
    · rw [save_to_file_items]
      exact modAt_getElem?_of_ne _ _ _ k hk
    · rfl

/-- Witness for c5_visual_sorting: the untouched-entry clause applied
at a concrete two-item list, toggling index 0 and reading index 1. -/
theorem c5_visual_sorting_witness :
    (toggle_complete (initApp none) 0).items[1]? = (initApp none).items[1]? :=
  (c5_visual_sorting (initApp none) 0).2.2.2.2.2.2.2.2.2 1 (by decide)

/-! ## C9: delete/edit never leave the list empty -/

theorem eraseAt_length_le (l : List TodoItem) (i : Int) :
    l.length - 1 ≤ (eraseAt l i).length := by
  unfold eraseAt
  split
  · rw [List.length_eraseIdx]
    split <;> omega
  · omega

/-- C9: The item list is never left empty — delete_item on a non-empty
list leaves a non-empty list, as do finish_editing and the Escape
branch of the keyboard handler; in the singleton cases (deleting the
last item, or finishing/escaping an edit whose text is empty in a
one-element list) the result is exactly one fresh empty item whose
editing has begun (editing_index 0, input visible and empty). -/
theorem c9_never_empty (s : AppState) (i : Int) :
    (s.items ≠ [] → (delete_item s i).items ≠ [])
    ∧ (s.items ≠ [] → (finish_editing s).items ≠ [])
    ∧ (s.items ≠ [] → (stepEscape s).items ≠ [])
    ∧ (0 ≤ i → s.items.length = 1 → i < 1 →
        (delete_item s i).items = [mkItem []] ∧ (delete_item s i).editing_index = 0
        ∧ (delete_item s i).input_visible = true ∧ (delete_item s i).input_value = [])
    ∧ (s.editing_index = 0 → s.items.length = 1 → s.input_visible = true →
        s.input_value = [] →
        (finish_editing s).items = [mkItem []] ∧ (finish_editing s).editing_index = 0
        ∧ (finish_editing s).input_visible = true ∧ (finish_editing s).input_value = [])
    ∧ (s.editing_index = 0 → s.items.length = 1 → s.input_visible = true →
        s.input_value = [] →
        (stepEscape s).items = [mkItem []] ∧ (stepEscape s).editing_index = 0
        ∧ (stepEscape s).input_visible = true ∧ (stepEscape s).input_value = []) := by
  refine ⟨?_, ?_, ?_, ?_, ?_, ?_⟩
  · intro hne
    simp only [delete_item]
    by_cases hv : 0 ≤ i ∧ i < (s.items.length : Int)
    · rw [if_pos hv]
      simp only [save_to_file_items]
      repeat' split
      all_goals first
        | assumption
        | simp [start_editing_core_items]
    · rw [if_neg hv]; exact hne
  · intro hne
    simp only [finish_editing]
    by_cases hv : 0 ≤ s.editing_index ∧ s.editing_index < (s.items.length : Int)
    · rw [if_pos hv]
      by_cases hempty : (if s.input_visible then s.input_value else s.editing_text) = []
      · rw [if_pos hempty]
        repeat' split
        all_goals first
          | assumption
          | simp [start_editing_core_items]
      · rw [if_neg hempty]
        simp only [save_to_file_items]
        intro hc
        have hlc := congrArg List.length hc
        rw [modAt_length] at hlc
        simp at hlc
        exact hne hlc
    · rw [if_neg hv]; exact hne
  · intro hne
    simp only [stepEscape]
    by_cases hg : 0 ≤ s.editing_index ∧ s.input_visible = true
    · rw [if_pos hg]
      by_cases hc : s.input_value = [] ∧ s.editing_index < (s.items.length : Int)
      · rw [if_pos hc]
        repeat' split
        all_goals first
          | assumption
          | simp [start_editing_core_items]
      · rw [if_neg hc]
        simp only [save_to_file_items]
        exact hne
    · rw [if_neg hg]; exact hne
  · intro h0 hlen hi1
    have hi : i = 0 := by omega
    subst hi
    obtain ⟨a, ha⟩ := List.length_eq_one.mp hlen
    have hv : (0 : Int) ≤ 0 ∧ (0 : Int) < (s.items.length : Int) := by
      constructor
      · omega
      · rw [hlen]; omega
    have her : eraseAt s.items 0 = [] := by rw [ha]; rfl
    simp only [delete_item, if_pos hv, her]
    repeat' split
    all_goals
      simp_all [clamp_scroll_offset_items, start_editing_core, getAt, save_to_file, mkItem]
  · intro hei hlen hvis hval
    obtain ⟨a, ha⟩ := List.length_eq_one.mp hlen
    have hv : 0 ≤ s.editing_index ∧ s.editing_index < (s.items.length : Int) := by
      rw [hei, hlen]; omega
    have hempty : (if s.input_visible then s.input_value else s.editing_text) = [] := by
      rw [hvis, if_pos rfl, hval]
    have her : eraseAt s.items s.editing_index = [] := by rw [ha, hei]; rfl
    simp only [finish_editing, if_pos hv, hempty, eq_self_iff_true, if_true, her]
    simp_all [start_editing_core, getAt, save_to_file, mkItem]
  · intro hei hlen hvis hval
    obtain ⟨a, ha⟩ := List.length_eq_one.mp hlen
    have hg : 0 ≤ s.editing_index ∧ s.input_visible = true := by
      rw [hei]; exact ⟨le_refl _, hvis⟩
    have hc : s.input_value = [] ∧ s.editing_index < (s.items.length : Int) := by
      rw [hval, hei, hlen]; exact ⟨rfl, by omega⟩
    have her : eraseAt s.items s.editing_index = [] := by rw [ha, hei]; rfl
    simp only [stepEscape, if_pos hg, if_pos hc, her]
    repeat' split
    all_goals
      simp_all [start_editing_core, getAt, save_to_file, mkItem]

/-- Witness for c9_never_empty: deleting the single item of a
one-element list leaves exactly one fresh empty item being edited. -/
theorem c9_never_empty_witness :
    (delete_item (initApp (some ['0', '|', '0', '|', 'a', '\n'])) 0).items = [mkItem []] :=
  ((c9_never_empty (initApp (some ['0', '|', '0', '|', 'a', '\n'])) 0).2.2.2.1
    (by decide) (by decide) (by decide)).1

/-! ## C4: persist-after-mutation -/

theorem save_to_file_synced (s : AppState) :
    (save_to_file s).file = save_content (save_to_file s).items := rfl

/-- C4 (amended): every mutating user action except finishing an edit
with empty text leaves the data file equal to the serialization of the
in-memory list: add_item always saves last, delete_item and
toggle_complete save for every valid index, reorder_items saves for
valid distinct indices, and finish_editing saves when the effective
edited text is non-empty.  (Finishing an edit with empty text removes
the item without saving — see the counterexample.) -/
theorem c4_persist_after_mutation (s : AppState) (text : Str) (i f t : Int) :
    (add_item s text).file = save_content (add_item s text).items
    ∧ (0 ≤ i → i < (s.items.length : Int) →
        (delete_item s i).file = save_content (delete_item s i).items)
    ∧ (0 ≤ i → i < (s.items.length : Int) →
        (toggle_complete s i).file = save_content (toggle_complete s i).items)
    ∧ (0 ≤ f → f < (s.items.length : Int) → 0 ≤ t → t < (s.items.length : Int) → f ≠ t →
        (reorder_items s f t).file = save_content (reorder_items s f t).items)
    ∧ (0 ≤ s.editing_index → s.editing_index < (s.items.length : Int) →
        (if s.input_visible then s.input_value else s.editing_text) ≠ [] →
        (finish_editing s).file = save_content (finish_editing s).items) := by
  refine ⟨?_, ?_, ?_, ?_, ?_⟩
  · simp only [add_item]
    exact save_to_file_synced _
  · intro h0 hl
    simp only [delete_item, if_pos (⟨h0, hl⟩ : 0 ≤ i ∧ i < (s.items.length : Int))]
    exact save_to_file_synced _
  · intro h0 hl
    simp only [toggle_complete, if_pos (⟨h0, hl⟩ : 0 ≤ i ∧ i < (s.items.length : Int))]
    exact save_to_file_synced _
  · intro hf0 hfl ht0 htl hne
    have hng : ¬(f < 0 ∨ (s.items.length : Int) ≤ f ∨ t < 0 ∨
        (s.items.length : Int) ≤ t ∨ f = t) := by
      push_neg
      exact ⟨hf0, hfl, ht0, htl, hne⟩
    have hfn : f.toNat < s.items.length := by omega
    have hget : getAt s.items f = some (s.items.get ⟨f.toNat, hfn⟩) :=
      getAt_eq_get s.items f hf0 hfn
    simp only [reorder_items, if_neg hng, hget]
    exact save_to_file_synced _
  · intro h0 hl hne
    simp only [finish_editing,
      if_pos (⟨h0, hl⟩ : 0 ≤ s.editing_index ∧ s.editing_index < (s.items.length : Int)),
      if_neg hne]
    exact save_to_file_synced _

/-- Witness for c4_persist_after_mutation: the toggle clause at a
concrete state and index. -/
theorem c4_persist_after_mutation_witness :
    (toggle_complete (initApp none) 0).file =
      save_content (toggle_complete (initApp none) 0).items :=
  (c4_persist_after_mutation (initApp none) [] 0 0 1).2.2.1 (by decide) (by decide)

/-- Concrete state refuting C4 as stated: two items, item 0 being
edited with the input widget holding empty text, data file in sync. -/
def c4_state : AppState :=
  { items := [mkItem ['a'], mkItem ['b']], selected_index := -1, drag_start_y := 0,
    drag_start_x := 0, is_dragging := false, is_swiping := false, is_pulling_down := false,
    pull_down_offset := 0, drag_offset := 0, editing_index := 0, editing_text := ['a'],
    pending_click_index := -1, can_reorder := false, scroll_offset := 0,
    input_visible := true, input_value := [], error_message := [], error_visible := false,
    file := save_content [mkItem ['a'], mkItem ['b']], button_down := false,
    long_press_armed := false, click_timer_armed := false }

/-- Counterexample to C4 as stated: finishing an edit whose text was
cleared removes the item (a model mutation) but does not save, so the
data file no longer equals the serialization of the in-memory list. -/
theorem c4_counterexample :
    c4_state.file = save_content c4_state.items
    ∧ (finish_editing c4_state).items ≠ c4_state.items
    ∧ (finish_editing c4_state).file ≠ save_content (finish_editing c4_state).items :=
  ⟨rfl, by decide, by decide⟩

/-! ## C8: gesture-mode bookkeeping

`gest` collects the fields relevant to the four interaction modes (plus
the ghost timer/button fields).  Most helper operations never touch
them. -/

def gest (s : AppState) : Bool × Bool × Bool × Bool × Bool × Bool × Int :=
  (s.is_swiping, s.is_pulling_down, s.can_reorder, s.button_down, s.long_press_armed,
   s.click_timer_armed, s.pending_click_index)

theorem gest_eq_iff {s t : AppState} : gest s = gest t ↔
    (s.is_swiping = t.is_swiping ∧ s.is_pulling_down = t.is_pulling_down ∧
     s.can_reorder = t.can_reorder ∧ s.button_down = t.button_down ∧
     s.long_press_armed = t.long_press_armed ∧ s.click_timer_armed = t.click_timer_armed ∧
     s.pending_click_index = t.pending_click_index) := by
  simp [gest, Prod.ext_iff]

theorem gest_save_to_file (s : AppState) : gest (save_to_file s) = gest s := rfl

theorem gest_setSwipe (s : AppState) (dx : Int) : gest (setSwipe s dx) = gest s := rfl

theorem gest_clamp_scroll_offset (s : AppState) :
    gest (clamp_scroll_offset s) = gest s := by
  simp only [clamp_scroll_offset]
  repeat' split
  all_goals rfl

theorem gest_start_editing_core (s : AppState) (i : Int) :
    gest (start_editing_core s i) = gest s := by
  simp only [start_editing_core]
  repeat' split
  all_goals rfl

theorem gest_finish_editing (s : AppState) : gest (finish_editing s) = gest s := by
  simp only [finish_editing]
  repeat' split
  all_goals rfl

theorem gest_start_editing (s : AppState) (i : Int) :
    gest (start_editing s i) = gest s := by
  simp only [start_editing]
  repeat' split
  all_goals first
    | rfl
    | exact gest_start_editing_core _ _
    | exact (gest_start_editing_core (finish_editing s) i).trans (gest_finish_editing s)

theorem gest_delete_item (s : AppState) (i : Int) : gest (delete_item s i) = gest s := by
  simp only [delete_item]
  repeat' split
  all_goals first
    | rfl
    | exact gest_clamp_scroll_offset _

theorem gest_toggle_complete (s : AppState) (i : Int) :
    gest (toggle_complete s i) = gest s := by
  simp only [toggle_complete]
  split
  all_goals rfl

theorem gest_reorder_items (s : AppState) (f t : Int) :
    gest (reorder_items s f t) = gest s := by
  simp only [reorder_items]
  repeat' split
  all_goals rfl

theorem gest_releaseSwipe (s : AppState) : gest (releaseSwipe s) = gest s := by
  simp only [releaseSwipe]
  repeat' split
  all_goals first
    | rfl
    | exact gest_delete_item _ _
    | exact (gest_setSwipe _ _).trans (gest_toggle_complete _ _)

theorem gest_pushFinishEdit (s : AppState) (my : Int) (btn : MB) :
    gest (pushFinishEdit s my btn) = gest s := by
  simp only [pushFinishEdit]
  repeat' split
  all_goals first
    | rfl
    | exact gest_finish_editing _

theorem gest_pushRightDelete (s : AppState) (i : Int) :
    gest (pushRightDelete s i) = gest s := by
  simp only [pushRightDelete]
  split
  · exact (gest_delete_item _ _).trans (gest_finish_editing _)
  · exact gest_delete_item _ _

/-! ## Field projections of the gesture-preserving operations -/

@[simp] theorem save_to_file_is_swiping (s : AppState) :
    (save_to_file s).is_swiping = s.is_swiping :=
  congrArg (fun p => p.1) (gest_save_to_file s)

@[simp] theorem save_to_file_is_pulling_down (s : AppState) :
    (save_to_file s).is_pulling_down = s.is_pulling_down :=
  congrArg (fun p => p.2.1) (gest_save_to_file s)

@[simp] theorem save_to_file_can_reorder (s : AppState) :
    (save_to_file s).can_reorder = s.can_reorder :=
  congrArg (fun p => p.2.2.1) (gest_save_to_file s)

@[simp] theorem save_to_file_button_down (s : AppState) :
    (save_to_file s).button_down = s.button_down :=
  congrArg (fun p => p.2.2.2.1) (gest_save_to_file s)

@[simp] theorem save_to_file_long_press_armed (s : AppState) :
    (save_to_file s).long_press_armed = s.long_press_armed :=
  congrArg (fun p => p.2.2.2.2.1) (gest_save_to_file s)

@[simp] theorem save_to_file_click_timer_armed (s : AppState) :
    (save_to_file s).click_timer_armed = s.click_timer_armed :=
  congrArg (fun p => p.2.2.2.2.2.1) (gest_save_to_file s)

@[simp] theorem save_to_file_pending_click_index (s : AppState) :
    (save_to_file s).pending_click_index = s.pending_click_index :=
  congrArg (fun p => p.2.2.2.2.2.2) (gest_save_to_file s)

@[simp] theorem setSwipe_is_swiping (s : AppState) (dx : Int) :
    (setSwipe s dx).is_swiping = s.is_swiping :=
  congrArg (fun p => p.1) (gest_setSwipe s dx)

@[simp] theorem setSwipe_is_pulling_down (s : AppState) (dx : Int) :
    (setSwipe s dx).is_pulling_down = s.is_pulling_down :=
  congrArg (fun p => p.2.1) (gest_setSwipe s dx)

@[simp] theorem setSwipe_can_reorder (s : AppState) (dx : Int) :
    (setSwipe s dx).can_reorder = s.can_reorder :=
  congrArg (fun p => p.2.2.1) (gest_setSwipe s dx)

@[simp] theorem setSwipe_button_down (s : AppState) (dx : Int) :
    (setSwipe s dx).button_down = s.button_down :=
  congrArg (fun p => p.2.2.2.1) (gest_setSwipe s dx)

@[simp] theorem setSwipe_long_press_armed (s : AppState) (dx : Int) :
    (setSwipe s dx).long_press_armed = s.long_press_armed :=
  congrArg (fun p => p.2.2.2.2.1) (gest_setSwipe s dx)

@[simp] theorem setSwipe_click_timer_armed (s : AppState) (dx : Int) :
    (setSwipe s dx).click_timer_armed = s.click_timer_armed :=
  congrArg (fun p => p.2.2.2.2.2.1) (gest_setSwipe s dx)

@[simp] theorem setSwipe_pending_click_index (s : AppState) (dx : Int) :
    (setSwipe s dx).pending_click_index = s.pending_click_index :=
  congrArg (fun p => p.2.2.2.2.2.2) (gest_setSwipe s dx)

@[simp] theorem clamp_scroll_offset_is_swiping (s : AppState) :
    (clamp_scroll_offset s).is_swiping = s.is_swiping :=
  congrArg (fun p => p.1) (gest_clamp_scroll_offset s)

@[simp] theorem clamp_scroll_offset_is_pulling_down (s : AppState) :
    (clamp_scroll_offset s).is_pulling_down = s.is_pulling_down :=
  congrArg (fun p => p.2.1) (gest_clamp_scroll_offset s)

@[simp] theorem clamp_scroll_offset_can_reorder (s : AppState) :
    (clamp_scroll_offset s).can_reorder = s.can_reorder :=
  congrArg (fun p => p.2.2.1) (gest_clamp_scroll_offset s)

@[simp] theorem clamp_scroll_offset_button_down (s : AppState) :
    (clamp_scroll_offset s).button_down = s.button_down :=
  congrArg (fun p => p.2.2.2.1) (gest_clamp_scroll_offset s)

@[simp] theorem clamp_scroll_offset_long_press_armed (s : AppState) :
    (clamp_scroll_offset s).long_press_armed = s.long_press_armed :=
  congrArg (fun p => p.2.2.2.2.1) (gest_clamp_scroll_offset s)

@[simp] theorem clamp_scroll_offset_click_timer_armed (s : AppState) :
    (clamp_scroll_offset s).click_timer_armed = s.click_timer_armed :=
  congrArg (fun p => p.2.2.2.2.2.1) (gest_clamp_scroll_offset s)

@[simp] theorem clamp_scroll_offset_pending_click_index (s : AppState) :
    (clamp_scroll_offset s).pending_click_index = s.pending_click_index :=
  congrArg (fun p => p.2.2.2.2.2.2) (gest_clamp_scroll_offset s)

@[simp] theorem start_editing_core_is_swiping (s : AppState) (i : Int) :
    (start_editing_core s i).is_swiping = s.is_swiping :=
  congrArg (fun p => p.1) (gest_start_editing_core s i)

@[simp] theorem start_editing_core_is_pulling_down (s : AppState) (i : Int) :
    (start_editing_core s i).is_pulling_down = s.is_pulling_down :=
  congrArg (fun p => p.2.1) (gest_start_editing_core s i)

@[simp] theorem start_editing_core_can_reorder (s : AppState) (i : Int) :
    (start_editing_core s i).can_reorder = s.can_reorder :=
  congrArg (fun p => p.2.2.1) (gest_start_editing_core s i)

@[simp] theorem start_editing_core_button_down (s : AppState) (i : Int) :
    (start_editing_core s i).button_down = s.button_down :=
  congrArg (fun p => p.2.2.2.1) (gest_start_editing_core s i)

@[simp] theorem start_editing_core_long_press_armed (s : AppState) (i : Int) :
    (start_editing_core s i).long_press_armed = s.long_press_armed :=
  congrArg (fun p => p.2.2.2.2.1) (gest_start_editing_core s i)

@[simp] theorem start_editing_core_click_timer_armed (s : AppState) (i : Int) :
    (start_editing_core s i).click_timer_armed = s.click_timer_armed :=
  congrArg (fun p => p.2.2.2.2.2.1) (gest_start_editing_core s i)

@[simp] theorem start_editing_core_pending_click_index (s : AppState) (i : Int) :
    (start_editing_core s i).pending_click_index = s.pending_click_index :=
  congrArg (fun p => p.2.2.2.2.2.2) (gest_start_editing_core s i)

@[simp] theorem finish_editing_is_swiping (s : AppState) :
    (finish_editing s).is_swiping = s.is_swiping :=
  congrArg (fun p => p.1) (gest_finish_editing s)

@[simp] theorem finish_editing_is_pulling_down (s : AppState) :
    (finish_editing s).is_pulling_down = s.is_pulling_down :=
  congrArg (fun p => p.2.1) (gest_finish_editing s)

@[simp] theorem finish_editing_can_reorder (s : AppState) :
    (finish_editing s).can_reorder = s.can_reorder :=
  congrArg (fun p => p.2.2.1) (gest_finish_editing s)

@[simp] theorem finish_editing_button_down (s : AppState) :
    (finish_editing s).button_down = s.button_down :=
  congrArg (fun p => p.2.2.2.1) (gest_finish_editing s)

@[simp] theorem finish_editing_long_press_armed (s : AppState) :
    (finish_editing s).long_press_armed = s.long_press_armed :=
  congrArg (fun p => p.2.2.2.2.1) (gest_finish_editing s)

@[simp] theorem finish_editing_click_timer_armed (s : AppState) :
    (finish_editing s).click_timer_armed = s.click_timer_armed :=
  congrArg (fun p => p.2.2.2.2.2.1) (gest_finish_editing s)

@[simp] theorem finish_editing_pending_click_index (s : AppState) :
    (finish_editing s).pending_click_index = s.pending_click_index :=
  congrArg (fun p => p.2.2.2.2.2.2) (gest_finish_editing s)

@[simp] theorem start_editing_is_swiping (s : AppState) (i : Int) :
    (start_editing s i).is_swiping = s.is_swiping :=
  congrArg (fun p => p.1) (gest_start_editing s i)

@[simp] theorem start_editing_is_pulling_down (s : AppState) (i : Int) :
    (start_editing s i).is_pulling_down = s.is_pulling_down :=
  congrArg (fun p => p.2.1) (gest_start_editing s i)

@[simp] theorem start_editing_can_reorder (s : AppState) (i : Int) :
    (start_editing s i).can_reorder = s.can_reorder :=
  congrArg (fun p => p.2.2.1) (gest_start_editing s i)

@[simp] theorem start_editing_button_down (s : AppState) (i : Int) :
    (start_editing s i).button_down = s.button_down :=
  congrArg (fun p => p.2.2.2.1) (gest_start_editing s i)

@[simp] theorem start_editing_long_press_armed (s : AppState) (i : Int) :
    (start_editing s i).long_press_armed = s.long_press_armed :=
  congrArg (fun p => p.2.2.2.2.1) (gest_start_editing s i)

@[simp] theorem start_editing_click_timer_armed (s : AppState) (i : Int) :
    (start_editing s i).click_timer_armed = s.click_timer_armed :=
  congrArg (fun p => p.2.2.2.2.2.1) (gest_start_editing s i)

@[simp] theorem start_editing_pending_click_index (s : AppState) (i : Int) :
    (start_editing s i).pending_click_index = s.pending_click_index :=
  congrArg (fun p => p.2.2.2.2.2.2) (gest_start_editing s i)

@[simp] theorem delete_item_is_swiping (s : AppState) (i : Int) :
    (delete_item s i).is_swiping = s.is_swiping :=
  congrArg (fun p => p.1) (gest_delete_item s i)

@[simp] theorem delete_item_is_pulling_down (s : AppState) (i : Int) :
    (delete_item s i).is_pulling_down = s.is_pulling_down :=
  congrArg (fun p => p.2.1) (gest_delete_item s i)

@[simp] theorem delete_item_can_reorder (s : AppState) (i : Int) :
    (delete_item s i).can_reorder = s.can_reorder :=
  congrArg (fun p => p.2.2.1) (gest_delete_item s i)

@[simp] theorem delete_item_button_down (s : AppState) (i : Int) :
    (delete_item s i).button_down = s.button_down :=
  congrArg (fun p => p.2.2.2.1) (gest_delete_item s i)

@[simp] theorem delete_item_long_press_armed (s : AppState) (i : Int) :
    (delete_item s i).long_press_armed = s.long_press_armed :=
  congrArg (fun p => p.2.2.2.2.1) (gest_delete_item s i)

@[simp] theorem delete_item_click_timer_armed (s : AppState) (i : Int) :
    (delete_item s i).click_timer_armed = s.click_timer_armed :=
  congrArg (fun p => p.2.2.2.2.2.1) (gest_delete_item s i)

@[simp] theorem delete_item_pending_click_index (s : AppState) (i : Int) :
    (delete_item s i).pending_click_index = s.pending_click_index :=
  congrArg (fun p => p.2.2.2.2.2.2) (gest_delete_item s i)

@[simp] theorem toggle_complete_is_swiping (s : AppState) (i : Int) :
    (toggle_complete s i).is_swiping = s.is_swiping :=
  congrArg (fun p => p.1) (gest_toggle_complete s i)

@[simp] theorem toggle_complete_is_pulling_down (s : AppState) (i : Int) :
    (toggle_complete s i).is_pulling_down = s.is_pulling_down :=
  congrArg (fun p => p.2.1) (gest_toggle_complete s i)

@[simp] theorem toggle_complete_can_reorder (s : AppState) (i : Int) :
    (toggle_complete s i).can_reorder = s.can_reorder :=
  congrArg (fun p => p.2.2.1) (gest_toggle_complete s i)

@[simp] theorem toggle_complete_button_down (s : AppState) (i : Int) :
    (toggle_complete s i).button_down = s.button_down :=
  congrArg (fun p => p.2.2.2.1) (gest_toggle_complete s i)

@[simp] theorem toggle_complete_long_press_armed (s : AppState) (i : Int) :
    (toggle_complete s i).long_press_armed = s.long_press_armed :=
  congrArg (fun p => p.2.2.2.2.1) (gest_toggle_complete s i)

@[simp] theorem toggle_complete_click_timer_armed (s : AppState) (i : Int) :
    (toggle_complete s i).click_timer_armed = s.click_timer_armed :=
  congrArg (fun p => p.2.2.2.2.2.1) (gest_toggle_complete s i)

@[simp] theorem toggle_complete_pending_click_index (s : AppState) (i : Int) :
    (toggle_complete s i).pending_click_index = s.pending_click_index :=
  congrArg (fun p => p.2.2.2.2.2.2) (gest_toggle_complete s i)

@[simp] theorem reorder_items_is_swiping (s : AppState) (f t : Int) :
    (reorder_items s f t).is_swiping = s.is_swiping :=
  congrArg (fun p => p.1) (gest_reorder_items s f t)

@[simp] theorem reorder_items_is_pulling_down (s : AppState) (f t : Int) :
    (reorder_items s f t).is_pulling_down = s.is_pulling_down :=
  congrArg (fun p => p.2.1) (gest_reorder_items s f t)

@[simp] theorem reorder_items_can_reorder (s : AppState) (f t : Int) :
    (reorder_items s f t).can_reorder = s.can_reorder :=
  congrArg (fun p => p.2.2.1) (gest_reorder_items s f t)

@[simp] theorem reorder_items_button_down (s : AppState) (f t : Int) :
    (reorder_items s f t).button_down = s.button_down :=
  congrArg (fun p => p.2.2.2.1) (gest_reorder_items s f t)

@[simp] theorem reorder_items_long_press_armed (s : AppState) (f t : Int) :
    (reorder_items s f t).long_press_armed = s.long_press_armed :=
  congrArg (fun p => p.2.2.2.2.1) (gest_reorder_items s f t)

@[simp] theorem reorder_items_click_timer_armed (s : AppState) (f t : Int) :
    (reorder_items s f t).click_timer_armed = s.click_timer_armed :=
  congrArg (fun p => p.2.2.2.2.2.1) (gest_reorder_items s f t)

@[simp] theorem reorder_items_pending_click_index (s : AppState) (f t : Int) :
    (reorder_items s f t).pending_click_index = s.pending_click_index :=
  congrArg (fun p => p.2.2.2.2.2.2) (gest_reorder_items s f t)

@[simp] theorem releaseSwipe_is_swiping (s : AppState) :
    (releaseSwipe s).is_swiping = s.is_swiping :=
  congrArg (fun p => p.1) (gest_releaseSwipe s)

@[simp] theorem releaseSwipe_is_pulling_down (s : AppState) :
    (releaseSwipe s).is_pulling_down = s.is_pulling_down :=
  congrArg (fun p => p.2.1) (gest_releaseSwipe s)

@[simp] theorem releaseSwipe_can_reorder (s : AppState) :
    (releaseSwipe s).can_reorder = s.can_reorder :=
  congrArg (fun p => p.2.2.1) (gest_releaseSwipe s)

@[simp] theorem releaseSwipe_button_down (s : AppState) :
    (releaseSwipe s).button_down = s.button_down :=
  congrArg (fun p => p.2.2.2.1) (gest_releaseSwipe s)

@[simp] theorem releaseSwipe_long_press_armed (s : AppState) :
    (releaseSwipe s).long_press_armed = s.long_press_armed :=
  congrArg (fun p => p.2.2.2.2.1) (gest_releaseSwipe s)

@[simp] theorem releaseSwipe_click_timer_armed (s : AppState) :
    (releaseSwipe s).click_timer_armed = s.click_timer_armed :=
  congrArg (fun p => p.2.2.2.2.2.1) (gest_releaseSwipe s)

@[simp] theorem releaseSwipe_pending_click_index (s : AppState) :
    (releaseSwipe s).pending_click_index = s.pending_click_index :=
  congrArg (fun p => p.2.2.2.2.2.2) (gest_releaseSwipe s)

@[simp] theorem pushFinishEdit_is_swiping (s : AppState) (my : Int) (btn : MB) :
    (pushFinishEdit s my btn).is_swiping = s.is_swiping :=
  congrArg (fun p => p.1) (gest_pushFinishEdit s my btn)

@[simp] theorem pushFinishEdit_is_pulling_down (s : AppState) (my : Int) (btn : MB) :
    (pushFinishEdit s my btn).is_pulling_down = s.is_pulling_down :=
  congrArg (fun p => p.2.1) (gest_pushFinishEdit s my btn)

@[simp] theorem pushFinishEdit_can_reorder (s : AppState) (my : Int) (btn : MB) :
    (pushFinishEdit s my btn).can_reorder = s.can_reorder :=
  congrArg (fun p => p.2.2.1) (gest_pushFinishEdit s my btn)

@[simp] theorem pushFinishEdit_button_down (s : AppState) (my : Int) (btn : MB) :
    (pushFinishEdit s my btn).button_down = s.button_down :=
  congrArg (fun p => p.2.2.2.1) (gest_pushFinishEdit s my btn)

@[simp] theorem pushFinishEdit_long_press_armed (s : AppState) (my : Int) (btn : MB) :
    (pushFinishEdit s my btn).long_press_armed = s.long_press_armed :=
  congrArg (fun p => p.2.2.2.2.1) (gest_pushFinishEdit s my btn)

@[simp] theorem pushFinishEdit_click_timer_armed (s : AppState) (my : Int) (btn : MB) :
    (pushFinishEdit s my btn).click_timer_armed = s.click_timer_armed :=
  congrArg (fun p => p.2.2.2.2.2.1) (gest_pushFinishEdit s my btn)

@[simp] theorem pushFinishEdit_pending_click_index (s : AppState) (my : Int) (btn : MB) :
    (pushFinishEdit s my btn).pending_click_index = s.pending_click_index :=
  congrArg (fun p => p.2.2.2.2.2.2) (gest_pushFinishEdit s my btn)

@[simp] theorem pushRightDelete_is_swiping (s : AppState) (i : Int) :
    (pushRightDelete s i).is_swiping = s.is_swiping :=
  congrArg (fun p => p.1) (gest_pushRightDelete s i)

@[simp] theorem pushRightDelete_is_pulling_down (s : AppState) (i : Int) :
    (pushRightDelete s i).is_pulling_down = s.is_pulling_down :=
  congrArg (fun p => p.2.1) (gest_pushRightDelete s i)

@[simp] theorem pushRightDelete_can_reorder (s : AppState) (i : Int) :
    (pushRightDelete s i).can_reorder = s.can_reorder :=
  congrArg (fun p => p.2.2.1) (gest_pushRightDelete s i)

@[simp] theorem pushRightDelete_button_down (s : AppState) (i : Int) :
    (pushRightDelete s i).button_down = s.button_down :=
  congrArg (fun p => p.2.2.2.1) (gest_pushRightDelete s i)

@[simp] theorem pushRightDelete_long_press_armed (s : AppState) (i : Int) :
    (pushRightDelete s i).long_press_armed = s.long_press_armed :=
  congrArg (fun p => p.2.2.2.2.1) (gest_pushRightDelete s i)

@[simp] theorem pushRightDelete_click_timer_armed (s : AppState) (i : Int) :
    (pushRightDelete s i).click_timer_armed = s.click_timer_armed :=
  congrArg (fun p => p.2.2.2.2.2.1) (gest_pushRightDelete s i)

@[simp] theorem pushRightDelete_pending_click_index (s : AppState) (i : Int) :
    (pushRightDelete s i).pending_click_index = s.pending_click_index :=
  congrArg (fun p => p.2.2.2.2.2.2) (gest_pushRightDelete s i)


/-! ## The gesture-mode invariant -/

/-- Invariant carried through every reachable state: while the
long-press timer is armed, and while reorder mode is on, no click is
pending, pull-to-add is off and the button is held; and with the button
up all gesture state is off. -/
def Inv (s : AppState) : Prop :=
  (s.long_press_armed = true →
    s.pending_click_index < 0 ∧ s.is_pulling_down = false ∧ s.button_down = true)
  ∧ (s.can_reorder = true →
    s.pending_click_index < 0 ∧ s.is_pulling_down = false ∧ s.button_down = true)
  ∧ (s.button_down = false →
    s.can_reorder = false ∧ s.is_pulling_down = false ∧ s.is_swiping = false ∧
      s.long_press_armed = false)

theorem inv_of_gest_eq {s t : AppState} (hg : gest s = gest t) (h : Inv t) : Inv s := by
  obtain ⟨e1, e2, e3, e4, e5, e6, e7⟩ := gest_eq_iff.mp hg
  unfold Inv at h ⊢
  rw [e1, e2, e3, e4, e5, e7]
  exact h

theorem inv_initApp (content : Option Str) : Inv (initApp content) := by
  simp only [initApp]
  split
  all_goals exact ⟨fun ha => Bool.noConfusion ha, fun hb => Bool.noConfusion hb,
    fun _ => ⟨rfl, rfl, rfl, rfl⟩⟩

theorem gest_stepEscape (s : AppState) : gest (stepEscape s) = gest s := by
  simp only [stepEscape]
  repeat' split
  all_goals rfl

theorem gest_stepKeyDelete (s : AppState) : gest (stepKeyDelete s) = gest s := by
  simp only [stepKeyDelete]
  split
  · exact gest_delete_item _ _
  · rfl

theorem gest_stepWheel (s : AppState) (dy : Int) : gest (stepWheel s dy) = gest s := by
  simp only [stepWheel]
  split
  · exact gest_clamp_scroll_offset _
  · rfl

theorem handle_single_click_modes (s : AppState) (i : Int) :
    (handle_single_click s i).is_swiping = s.is_swiping
    ∧ (handle_single_click s i).is_pulling_down = s.is_pulling_down
    ∧ (handle_single_click s i).can_reorder = s.can_reorder
    ∧ (handle_single_click s i).button_down = s.button_down
    ∧ (handle_single_click s i).long_press_armed = s.long_press_armed
    ∧ (handle_single_click s i).click_timer_armed = s.click_timer_armed
    ∧ ((handle_single_click s i).pending_click_index = -1
        ∨ (handle_single_click s i).pending_click_index = s.pending_click_index) := by
  simp only [handle_single_click]
  split
  · split
    · obtain ⟨e1, e2, e3, e4, e5, e6, e7⟩ := gest_eq_iff.mp (gest_start_editing s i)
      exact ⟨e1, e2, e3, e4, e5, e6, Or.inl rfl⟩
    · exact ⟨rfl, rfl, rfl, rfl, rfl, rfl, Or.inl rfl⟩
  · exact ⟨rfl, rfl, rfl, rfl, rfl, rfl, Or.inr rfl⟩

theorem gest_add_item (s : AppState) (text : Str) : gest (add_item s text) =
    (s.is_swiping, false, s.can_reorder, s.button_down, s.long_press_armed,
     s.click_timer_armed, s.pending_click_index) := by
  simp only [add_item]
  split
  · refine Eq.trans (gest_start_editing_core _ 0) ?_
    obtain ⟨e1, e2, e3, e4, e5, e6, e7⟩ := gest_eq_iff.mp (gest_finish_editing s)
    simp [gest, e1, e3, e4, e5, e6, e7]
  · refine Eq.trans (gest_start_editing_core _ 0) ?_
    rfl

@[simp] theorem add_item_is_swiping (s : AppState) (text : Str) :
    (add_item s text).is_swiping = s.is_swiping :=
  congrArg (fun p => p.1) (gest_add_item s text)

@[simp] theorem add_item_is_pulling_down (s : AppState) (text : Str) :
    (add_item s text).is_pulling_down = false :=
  congrArg (fun p => p.2.1) (gest_add_item s text)

@[simp] theorem add_item_can_reorder (s : AppState) (text : Str) :
    (add_item s text).can_reorder = s.can_reorder :=
  congrArg (fun p => p.2.2.1) (gest_add_item s text)

@[simp] theorem add_item_button_down (s : AppState) (text : Str) :
    (add_item s text).button_down = s.button_down :=
  congrArg (fun p => p.2.2.2.1) (gest_add_item s text)

@[simp] theorem add_item_long_press_armed (s : AppState) (text : Str) :
    (add_item s text).long_press_armed = s.long_press_armed :=
  congrArg (fun p => p.2.2.2.2.1) (gest_add_item s text)

@[simp] theorem add_item_click_timer_armed (s : AppState) (text : Str) :
    (add_item s text).click_timer_armed = s.click_timer_armed :=
  congrArg (fun p => p.2.2.2.2.2.1) (gest_add_item s text)

@[simp] theorem add_item_pending_click_index (s : AppState) (text : Str) :
    (add_item s text).pending_click_index = s.pending_click_index :=
  congrArg (fun p => p.2.2.2.2.2.2) (gest_add_item s text)


theorem inv_stepLongPress (s : AppState) (h : Inv s) (hg : s.long_press_armed = true) :
    Inv (stepLongPress s) := by
  obtain ⟨hA, hB, hC⟩ := h
  obtain ⟨hp, hpd, hbd⟩ := hA hg
  simp only [stepLongPress]
  split
  · exact ⟨fun ha => Bool.noConfusion ha, fun _ => ⟨hp, hpd, hbd⟩,
      fun hc => Bool.noConfusion (hbd.symm.trans hc)⟩
  · exact ⟨fun ha => Bool.noConfusion ha, fun hb => hB hb,
      fun hc => ⟨(hC hc).1, (hC hc).2.1, (hC hc).2.2.1, rfl⟩⟩

theorem inv_stepClickFire (s : AppState) (h : Inv s) :
    Inv (stepClickFire s) := by
  obtain ⟨hA, hB, hC⟩ := h
  simp only [stepClickFire]
  split
  · obtain ⟨e1, e2, e3, e4, e5, e6, e7⟩ :=
      handle_single_click_modes { s with click_timer_armed := false } s.pending_click_index
    refine ⟨fun ha => ?_, fun hb => ?_, fun hc => ?_⟩
    · rw [e5] at ha
      obtain ⟨p1, p2, p3⟩ := hA ha
      refine ⟨?_, by rw [e2]; exact p2, by rw [e4]; exact p3⟩
      rcases e7 with h7 | h7 <;> rw [h7]
      · omega
      · exact p1
    · rw [e3] at hb
      obtain ⟨p1, p2, p3⟩ := hB hb
      refine ⟨?_, by rw [e2]; exact p2, by rw [e4]; exact p3⟩
      rcases e7 with h7 | h7 <;> rw [h7]
      · omega
      · exact p1
    · rw [e4] at hc
      obtain ⟨p1, p2, p3, p4⟩ := hC hc
      exact ⟨by rw [e3]; exact p1, by rw [e2]; exact p2, by rw [e1]; exact p3,
        by rw [e5]; exact p4⟩
  · refine ⟨fun ha => hA ha, fun hb => hB hb, fun hc => ?_⟩
    exact ⟨(hC hc).1, (hC hc).2.1, (hC hc).2.2.1, (hC hc).2.2.2⟩

theorem inv_stepPush (s : AppState) (mx my : Int) (btn : MB) (h : Inv s)
    (hbd : s.button_down = false) : Inv (stepPush s mx my btn) := by
  obtain ⟨hA, hB, hC⟩ := h
  obtain ⟨hcr, hpd, hsw, hlp⟩ := hC hbd
  simp only [stepPush]
  repeat' split
  all_goals
    refine ⟨fun ha => ?_, fun hb => ?_, fun hc => ?_⟩ <;> simp_all

theorem gest_dragPulling (s : AppState) (dy : Int) :
    gest (dragPulling s dy) = gest s := by
  simp only [dragPulling]
  repeat' split
  all_goals rfl

theorem dragPhase1_fst_button (s : AppState) (dx dy : Int) :
    ((dragPhase1 s dx dy).1).button_down = s.button_down := by
  simp only [dragPhase1]
  repeat' split
  all_goals simp

theorem inv_dragPhase1 (s : AppState) (dx dy : Int) (h : Inv s)
    (hbd : s.button_down = true) : Inv ((dragPhase1 s dx dy).1) := by
  obtain ⟨hA, hB, hC⟩ := h
  simp only [dragPhase1]
  repeat' split
  all_goals
    refine ⟨fun ha => ?_, fun hb => ?_, fun hc => ?_⟩ <;> simp_all

theorem inv_dragPhase2 (t : AppState) (dx dy my : Int) (h : Inv t)
    (hbd : t.button_down = true) : Inv (dragPhase2 t dx dy my) := by
  obtain ⟨hA, hB, hC⟩ := h
  simp only [dragPhase2]
  repeat' split
  all_goals
    refine ⟨fun ha => ?_, fun hb => ?_, fun hc => ?_⟩ <;> simp_all

theorem inv_stepDrag (s : AppState) (mx my : Int) (h : Inv s)
    (hbd : s.button_down = true) : Inv (stepDrag s mx my) := by
  simp only [stepDrag]
  split
  · exact inv_of_gest_eq (gest_dragPulling _ _) h
  · split
    · split
      · exact inv_dragPhase1 s _ _ h hbd
      · exact inv_dragPhase2 _ _ _ _ (inv_dragPhase1 s _ _ h hbd)
          ((dragPhase1_fst_button s _ _).trans hbd)
    · exact h

theorem inv_stepRelease (s : AppState) (mx my : Int) (clicks : Int) (h : Inv s)
    (hbd : s.button_down = true) : Inv (stepRelease s mx my clicks) := by
  obtain ⟨hA, hB, hC⟩ := h
  simp only [stepRelease]
  repeat' split
  all_goals
    refine ⟨fun ha => ?_, fun hb => ?_, fun hc => ?_⟩ <;> simp_all

theorem inv_stepEscape (s : AppState) (h : Inv s) : Inv (stepEscape s) :=
  inv_of_gest_eq (gest_stepEscape s) h

theorem inv_stepKeyDelete (s : AppState) (h : Inv s) : Inv (stepKeyDelete s) :=
  inv_of_gest_eq (gest_stepKeyDelete s) h

theorem inv_stepWheel (s : AppState) (dy : Int) (h : Inv s) : Inv (stepWheel s dy) :=
  inv_of_gest_eq (gest_stepWheel s dy) h

theorem inv_reachable (s : AppState) (h : Reachable s) : Inv s := by
  induction h with
  | init content => exact inv_initApp content
  | step e t hr hg ih =>
    cases e with
    | push mx my btn => exact inv_stepPush t mx my btn ih hg.1
    | drag mx my => exact inv_stepDrag t mx my ih hg
    | release mx my clicks => exact inv_stepRelease t mx my clicks ih hg
    | longPress => exact inv_stepLongPress t ih hg
    | clickFire => exact inv_stepClickFire t ih
    | keyEscape => exact inv_stepEscape t ih
    | keyDelete => exact inv_stepKeyDelete t ih
    | wheel dy => exact inv_stepWheel t dy ih

/-! ## Claim C8 -/

/-- Number of simultaneously active interaction modes named by the
claim: horizontal swipe, reorder-drag, pull-to-add, pending click. -/
def active_mode_count (s : AppState) : Nat :=
  (if s.is_swiping = true then 1 else 0) + (if s.can_reorder = true then 1 else 0)
    + (if s.is_pulling_down = true then 1 else 0)
    + (if 0 ≤ s.pending_click_index then 1 else 0)

/-- A concrete reachable state: press on the first item, let the
long-press timer fire (reorder mode), then drag 50 pixels right (the
handler then also enters swipe mode, lines 887-894 of the source). -/
def c8_state : AppState :=
  stepDrag (stepLongPress (stepPush (initApp none) 100 10 MB.left)) 150 10

/-- Counterexample to C8 as stated: after a long press followed by a
horizontal drag, `is_swiping` and `can_reorder` are both active in a
reachable state, so the four modes are not mutually exclusive. -/
theorem c8_counterexample :
    Reachable c8_state ∧ c8_state.is_swiping = true ∧ c8_state.can_reorder = true ∧
      ¬(active_mode_count c8_state ≤ 1) := by
  refine ⟨?_, by decide, by decide, by decide⟩
  exact Reachable.step (.drag 150 10) _
    (Reachable.step .longPress _
      (Reachable.step (.push 100 10 .left) _ (Reachable.init none) (by decide))
      (by decide))
    (by decide)

/-- C8 (amended): in every reachable state, reorder-drag mode
(can_reorder) is mutually exclusive with pull-to-add and with a pending
click; the remaining mode pairs are not mutually exclusive (swipe can
be active together with reorder-drag after a long press, swipe can turn
into pull-to-add without being cleared, and a pending click survives a
new press outside the items). -/
theorem c8_reorder_exclusive (s : AppState) (h : Reachable s)
    (hcr : s.can_reorder = true) :
    s.is_pulling_down = false ∧ s.pending_click_index < 0 :=
  ⟨((inv_reachable s h).2.1 hcr).2.1, ((inv_reachable s h).2.1 hcr).1⟩

/-- Witness for c8_reorder_exclusive: the state reached by pressing the
first item and letting the long-press timer fire has can_reorder set,
and indeed neither pull-to-add nor a pending click. -/
theorem c8_reorder_exclusive_witness :
    (stepLongPress (stepPush (initApp none) 100 10 MB.left)).is_pulling_down = false ∧
      (stepLongPress (stepPush (initApp none) 100 10 MB.left)).pending_click_index < 0 :=
  c8_reorder_exclusive _
    (Reachable.step .longPress _
      (Reachable.step (.push 100 10 .left) _ (Reachable.init none) (by decide))
      (by decide))
    (by decide)

end ClearTxt
